import Mathlib

/-!
# Verification of the `psd` PSD-writer crate

A shallow embedding of the crate's encoding pipeline:

* `rle.encoded` — the PackBits-style RLE encoder (`src/rle.rs`);
* `ColorChannel.compressedData` / `rleEncodedComponents` (`src/color_channel.rs`);
* `Layer` record/image encoding (`src/layer.rs`, `src/layer/group.rs`);
* `Document.fileData` (`src/document.rs`).

Bytes are modelled as `Nat` values below 256; machine-integer casts from the
source (`as u16`, `as u32`, `as i16`) appear as explicit `% 2 ^ w`
reductions.  The external `file_stream` writer is modelled by list
concatenation of big-endian byte encodings, and the external `graphics`
types (`Rect`, `Size`, `Point`, `Image`) are modelled structurally.
-/

namespace Psd

/-! ## The RLE encoder (`src/rle.rs`, `pub fn encoded`)

The Rust loop carries four mutable variables across iterations:
`output`, `non_repeating_run`, `previous_byte` and `previous_repeat_count`
(`repeat_count` is recomputed from `previous_repeat_count` at the top of each
iteration, because the two are equalised at the bottom of the loop body).
`EncState` packages exactly that carried state. -/

structure EncState where
  output : List Nat
  run : List Nat
  prev : Option Nat
  prc : Nat
  deriving Repr, DecidableEq

/-- `output.push((run.len() - 1) as u8); output.append(&mut run)` guarded by
`if non_repeating_run.is_empty() == false`. -/
def flushLit (out run : List Nat) : List Nat :=
  if run = [] then out else out ++ (run.length - 1) :: run

/-- One iteration of the encoder loop body for byte `b`;
`isEnd` is `index == source.len() - 1`.  `Sum.inr` is the `break` on a
missing `previous_byte` (it returns the output accumulated so far). -/
def encStep (s : EncState) (b : Nat) (isEnd : Bool) : EncState ⊕ List Nat :=
  -- `if Some(byte) == previous_byte && previous_repeat_count != 128 { repeat_count += 1 } else { repeat_count = 1 }`
  let rc0 : Nat := if s.prev = some b ∧ s.prc ≠ 128 then s.prc + 1 else 1
  -- `non_repeating_run.push(byte)`
  let run0 : List Nat := s.run ++ [b]
  -- Ending a non-repeating run due to too many repeats (`repeat_count == 3`).
  let st1 : List Nat × List Nat :=
    if rc0 = 3 then
      (flushLit s.output (if 3 ≤ run0.length then run0.take (run0.length - 3) else []), [])
    else (s.output, run0)
  -- Ending a non-repeating run because the data size got too high.
  let st2 : List Nat × List Nat × Nat :=
    if st1.2.length = 128 then (st1.1 ++ (st1.2.length - 1) :: st1.2, [], 0)
    else (st1.1, st1.2, rc0)
  -- Ending a repeating run because the repeating value stopped repeating.
  if 2 < s.prc ∧ st2.2.2 = 1 then
    match s.prev with
    | none => Sum.inr st2.1
    | some pb =>
        Sum.inl (encFinish (st2.1 ++ [255 - (s.prc - 1) + 1, pb]) [b] st2.2.2 b isEnd)
  else
    Sum.inl (encFinish st2.1 st2.2.1 st2.2.2 b isEnd)
where
  /-- The `if is_end` block at the bottom of the loop body, followed by the
  `previous_byte` / `previous_repeat_count` updates. -/
  encFinish (out run : List Nat) (rc b : Nat) (isEnd : Bool) : EncState :=
    if isEnd then
      if 3 ≤ rc then ⟨out ++ [255 - (rc - 1) + 1, b], run, some b, rc⟩
      else ⟨flushLit out run, run, some b, rc⟩
    else ⟨out, run, some b, rc⟩

/-- The `for (index, byte)` loop: every byte but the last runs with
`is_end = false`. -/
def encLoop (s : EncState) : List Nat → List Nat
  | [] => s.output
  | [b] =>
      match encStep s b true with
      | Sum.inl s' => s'.output
      | Sum.inr out => out
  | b :: b' :: rest =>
      match encStep s b false with
      | Sum.inl s' => encLoop s' (b' :: rest)
      | Sum.inr out => out

/-- `rle::encoded` — returns the data encoded using the RLE algorithm. -/
def encoded (source : List Nat) : List Nat :=
  encLoop ⟨[], [], none, 0⟩ source

/-! ### A reference PackBits decoder

Literal packet: header `h ∈ 0x00..0x7F` followed by `h + 1` literal bytes.
Repeat packet: header `h ∈ 0x81..0xFF` followed by one byte repeated
`257 - h` times.  Header `0x80` is skipped. -/

/-- Fuelled worker for the decoder (the fuel makes it structurally
recursive, so that the kernel can evaluate it on concrete inputs). -/
def rleDecodeGo : Nat → List Nat → List Nat
  | 0, _ => []
  | _ + 1, [] => []
  | fuel + 1, h :: rest =>
      if h ≤ 127 then
        rest.take (h + 1) ++ rleDecodeGo fuel (rest.drop (h + 1))
      else if h = 128 then
        rleDecodeGo fuel rest
      else
        match rest with
        | [] => []
        | b :: rest' => List.replicate (257 - h) b ++ rleDecodeGo fuel rest'

def rleDecode (l : List Nat) : List Nat :=
  rleDecodeGo l.length l

/-- A boolean parser for the packet grammar of C3: literal headers
`0x00..0x7F` with their full payload present, repeat headers `0x81..0xFE`
(repeat length `257 - h ∈ [3, 128]`), and never `0x80`. -/
def goodPacketsGo : Nat → List Nat → Bool
  | 0, [] => true
  | 0, _ :: _ => false
  | _ + 1, [] => true
  | fuel + 1, h :: rest =>
      if h ≤ 127 then
        decide (h + 1 ≤ rest.length) && goodPacketsGo fuel (rest.drop (h + 1))
      else if 129 ≤ h ∧ h ≤ 254 then
        match rest with
        | [] => false
        | _ :: rest' => goodPacketsGo fuel rest'
      else false

def goodPackets (l : List Nat) : Bool :=
  goodPacketsGo l.length l

/-- `Packets e d`: `e` is a complete sequence of well-formed PackBits packets
whose decoding is `d`. -/
inductive Packets : List Nat → List Nat → Prop where
  | nil : Packets [] []
  | lit (l e d : List Nat) : l ≠ [] → l.length ≤ 128 → Packets e d →
      Packets ((l.length - 1) :: (l ++ e)) (l ++ d)
  | rep (n b : Nat) (e d : List Nat) : 3 ≤ n → n ≤ 128 → Packets e d →
      Packets ((257 - n) :: b :: e) (List.replicate n b ++ d)

/-- Loop invariant of the encoder: after consuming the prefix `P` of its
input (with at least one byte still to come), the emitted output is a
complete packet sequence decoding to some `Q`, and the carried state is
either a forming repeat run (`3 ≤ prc ≤ 128`, the run buffer holding the
`prc - 3` most recent bytes) or a pending literal run (`prc ≤ 2`, the run
buffer ending with `prc` copies of the previous byte). -/
def Inv (s : EncState) (P : List Nat) : Prop :=
  ∃ Q, Packets s.output Q ∧
    ((3 ≤ s.prc ∧ s.prc ≤ 128 ∧ ∃ b, s.prev = some b ∧
        P = Q ++ List.replicate s.prc b ∧ s.run = List.replicate (s.prc - 3) b)
     ∨ (s.prc ≤ 2 ∧ P = Q ++ s.run ∧ s.run.length ≤ 127 ∧
        (s.prc = 0 ∨ ∃ b, s.prev = some b ∧ List.replicate s.prc b <:+ s.run)))

/-! ### Closed forms for the encoder on constant input

On input `replicate L c` the encoder cycles with period 128: the repeat
count climbs from 1 to 128 and a `[0x81, c]` packet is emitted at each
wrap-around.  `runOf j` is the length of the pending run buffer when the
repeat count is `j`, and `constTail c j L` is the output still to be
emitted from that phase with `L` constant bytes left. -/

def runOf (j : Nat) : Nat :=
  if j ≤ 2 then j else j - 3

def constTail (c : Nat) : Nat → Nat → List Nat
  | _, 0 => []
  | j, 1 =>
      if j = 128 then [129, c, 0, c]
      else if 2 ≤ j then [256 - j, c]
      else [1, c, c]
  | j, L + 2 =>
      if j = 128 then 129 :: c :: constTail c 1 (L + 1)
      else constTail c (j + 1) (L + 1)

/-! ## Byte-stream helpers

The external `file_stream` crate's `FileStreamWriter` only ever appends
bytes; `write_be` appends the big-endian bytes of a scalar.  A writer value
is therefore modelled as the list of bytes written so far, and each
`write_be` call as appending one of the encodings below.  The `% 2 ^ w`
reductions also absorb the source's `as u16` / `as u32` casts. -/

def u8byte (n : Nat) : List Nat := [n % 256]

def u16be (n : Nat) : List Nat := [n % 65536 / 256, n % 256]

def u32be (n : Nat) : List Nat :=
  [n % 4294967296 / 16777216, n % 16777216 / 65536, n % 65536 / 256, n % 256]

/-- Big-endian two's-complement bytes of an `i16` value (wrapping). -/
def i16be (z : Int) : List Nat := u16be (z.emod 65536).toNat

/-- Big-endian two's-complement bytes of an `i32` value (wrapping). -/
def i32be (z : Int) : List Nat := u32be (z.emod 4294967296).toNat

/-- The `usize as i16` cast used on the layer count. -/
def i16OfNat (n : Nat) : Int :=
  if n % 65536 < 32768 then (n % 65536 : Nat) else (n % 65536 : Nat) - 65536

/-- The `i32 as u32` cast (wrapping). -/
def u32OfInt (z : Int) : Nat := (z.emod 4294967296).toNat

/-! ## The `graphics` crate interface (external collaborator)

Only the parts the writer reads: sizes, points, rectangles with the usual
`min/max` accessors, and an interleaved-RGBA `Image` with `Image::empty`
producing a fully transparent raster. -/

structure SizeU where
  width : Nat
  height : Nat
  deriving Repr, DecidableEq

structure SizeI where
  width : Int
  height : Int
  deriving Repr, DecidableEq

structure Point where
  x : Int
  y : Int
  deriving Repr, DecidableEq

structure Rect where
  origin : Point
  size : SizeI
  deriving Repr, DecidableEq

def Rect.zero : Rect := ⟨⟨0, 0⟩, ⟨0, 0⟩⟩

def Rect.minX (r : Rect) : Int := r.origin.x

def Rect.minY (r : Rect) : Int := r.origin.y

def Rect.maxX (r : Rect) : Int := r.origin.x + r.size.width

def Rect.maxY (r : Rect) : Int := r.origin.y + r.size.height

def Rect.height (r : Rect) : Int := r.size.height

structure Image where
  size : SizeU
  bytes_per_row : Nat
  data : List Nat
  deriving Repr, DecidableEq

/-- `Image::empty` — a fully transparent RGBA image of the given size. -/
def Image.empty (s : SizeU) : Image :=
  ⟨s, 4 * s.width, List.replicate (s.width * s.height * 4) 0⟩

/-- The de-interleaved colour plane at byte offset `offset` (0 = red,
1 = green, 2 = blue, 3 = alpha), as produced by the source's
`for y { for x { channel.data[y*width + x] = image.data[y*bytes_per_row + x*4 + offset] } }`
loops.  An out-of-range read yields 0 here; the source would panic instead,
and no theorem below evaluates such a read. -/
def Image.plane (img : Image) (offset : Nat) : List Nat :=
  ((List.range img.size.height).map (fun y =>
    (List.range img.size.width).map (fun x =>
      img.data.getD (y * img.bytes_per_row + 4 * x + offset) 0))).flatten

/-! ## Enumerations (`color_mode.rs`, `color_channel/channel_type.rs`,
`image_compression.rs`, `blend_mode.rs`, `layer/divider_type.rs`,
`error.rs`) -/

inductive ColorMode where
  | bitmap | grayscale | indexed | rgb | cmyk | multichannel | duotone | lab
  deriving Repr, DecidableEq

def ColorMode.rawValue : ColorMode → Int
  | .bitmap => 0
  | .grayscale => 1
  | .indexed => 2
  | .rgb => 3
  | .cmyk => 4
  | .multichannel => 7
  | .duotone => 8
  | .lab => 9

inductive ColorChannelType where
  | red | green | blue | alpha
  | userSuppliedLayerMask | realUserSuppliedLayerMask | unknown
  deriving Repr, DecidableEq

def ColorChannelType.rawValue : ColorChannelType → Int
  | .red => 0
  | .green => 1
  | .blue => 2
  | .alpha => -1
  | .userSuppliedLayerMask => -2
  | .realUserSuppliedLayerMask => -3
  | .unknown => 9999

inductive ImageCompression where
  | rawData | rle | zipWithoutPrediction | zipWithPrediction
  deriving Repr, DecidableEq

def ImageCompression.rawValue : ImageCompression → Int
  | .rawData => 0
  | .rle => 1
  | .zipWithoutPrediction => 2
  | .zipWithPrediction => 3

inductive WriteError where
  | unsupportedCompression | invalidImage
  deriving Repr, DecidableEq

inductive DividerType where
  | other | openFolder | closedFolder | sectionDivider
  deriving Repr, DecidableEq

def DividerType.rawValue : DividerType → Nat
  | .other => 0
  | .openFolder => 1
  | .closedFolder => 2
  | .sectionDivider => 3

inductive BlendMode where
  | passThrough | normal | dissolve | darken | multiply | colorBurn
  | linearBurn | darkerColor | lighten | screen | colorDodge | linearDodge
  | lighterColor | overlay | softLight | hardLight | vividLight | linearLight
  | pinLight | hardMix | difference | exclusion | subtract | divide
  | hue | saturation | color | luminosity
  deriving Repr, DecidableEq

/-- `BlendMode::as_str().as_bytes()` — the 4-byte ASCII tag. -/
def BlendMode.asStr : BlendMode → List Nat
  | .passThrough => [0x70, 0x61, 0x73, 0x73]  -- "pass"
  | .normal => [0x6e, 0x6f, 0x72, 0x6d]  -- "norm"
  | .dissolve => [0x64, 0x69, 0x73, 0x73]  -- "diss"
  | .darken => [0x64, 0x61, 0x72, 0x6b]  -- "dark"
  | .multiply => [0x6d, 0x75, 0x6c, 0x20]  -- "mul "
  | .colorBurn => [0x69, 0x64, 0x69, 0x76]  -- "idiv"
  | .linearBurn => [0x6c, 0x62, 0x72, 0x6e]  -- "lbrn"
  | .darkerColor => [0x64, 0x6b, 0x43, 0x6c]  -- "dkCl"
  | .lighten => [0x6c, 0x69, 0x74, 0x65]  -- "lite"
  | .screen => [0x73, 0x63, 0x72, 0x6e]  -- "scrn"
  | .colorDodge => [0x64, 0x69, 0x76, 0x20]  -- "div "
  | .linearDodge => [0x6c, 0x64, 0x64, 0x67]  -- "lddg"
  | .lighterColor => [0x6c, 0x67, 0x43, 0x6c]  -- "lgCl"
  | .overlay => [0x6f, 0x76, 0x65, 0x72]  -- "over"
  | .softLight => [0x73, 0x4c, 0x69, 0x74]  -- "sLit"
  | .hardLight => [0x68, 0x4c, 0x69, 0x74]  -- "hLit"
  | .vividLight => [0x76, 0x4c, 0x69, 0x74]  -- "vLit"
  | .linearLight => [0x6c, 0x4c, 0x69, 0x74]  -- "lLit"
  | .pinLight => [0x70, 0x4c, 0x69, 0x74]  -- "pLit"
  | .hardMix => [0x68, 0x4d, 0x69, 0x78]  -- "hMix"
  | .difference => [0x64, 0x69, 0x66, 0x66]  -- "diff"
  | .exclusion => [0x73, 0x6d, 0x75, 0x64]  -- "smud"
  | .subtract => [0x66, 0x73, 0x75, 0x62]  -- "fsub"
  | .divide => [0x66, 0x64, 0x69, 0x76]  -- "fdiv"
  | .hue => [0x68, 0x75, 0x65, 0x20]  -- "hue "
  | .saturation => [0x73, 0x61, 0x74, 0x20]  -- "sat "
  | .color => [0x63, 0x6f, 0x6c, 0x72]  -- "colr"
  | .luminosity => [0x6c, 0x75, 0x6d, 0x20]  -- "lum "

/-! ## Constants (`document/constants.rs`, `layer/group/constants.rs`) -/

def FILE_SIGNATURE : List Nat := [0x38, 0x42, 0x50, 0x53]  -- "8BPS"

def RESOURCE_SIGNATURE : List Nat := [0x38, 0x42, 0x49, 0x4d]  -- "8BIM"

def RESOLUTION_INFORMATION : Int := 0x03ED

def LAYER_STATE : Int := 0x0400

def LAYERS_GROUP_INFORMATION : Int := 0x0402

def SECTION_DIVIDER_KEY : List Nat := [0x6c, 0x73, 0x63, 0x74]  -- "lsct"

/-! ## Strings (`string/pascal.rs`, `string/unicode.rs`)

A Rust `String` is modelled by the two encodings the writer reads from it:
its UTF-8 bytes (`as_bytes`) and its UTF-16 code units (`encode_utf16`). -/

structure RStr where
  bytes : List Nat
  utf16 : List Nat
  deriving Repr, DecidableEq

/-- `string::pascal::data_from_string`. -/
def pascalData : Option RStr → List Nat
  | none => [0x00, 0x00]
  | some s => s.bytes.length % 256 :: s.bytes

/-- `string::unicode::data_from_string`. -/
def unicodeData (s : Option RStr) : List Nat :=
  let u := match s with
    | none => []
    | some s => s.utf16
  let stringStream := u32be u.length ++ (u.map u16be).flatten
  RESOURCE_SIGNATURE ++ [0x6c, 0x75, 0x6e, 0x69] ++ u32be stringStream.length
    ++ stringStream

/-- `data::pad` — pads with zeros to a multiple of `n` bytes (`n` is 2 or 4
at every call site). -/
def pad (d : List Nat) (n : Nat) : List Nat :=
  d ++ List.replicate (if d.length % n = 0 then 0 else n - d.length % n) 0

/-! ## Colour channels (`color_channel.rs`) -/

structure ColorChannel where
  data_length : Nat
  color_type : ColorChannelType
  data : List Nat
  /-- The cached compressed data (the `compressed_data` field). -/
  cache : Option (List Nat)
  deriving Repr, DecidableEq

/-- `ColorChannel::new` — a channel with all-zero data. -/
def ColorChannel.new (t : ColorChannelType) (dataLength : Nat) : ColorChannel :=
  ⟨dataLength, t, List.replicate dataLength 0, none⟩

structure CompressedDataResult where
  data : List Nat
  compression : ImageCompression
  deriving Repr, DecidableEq

structure RleComponents where
  line_lengths : List Nat
  data : List Nat
  deriving Repr, DecidableEq

/-- `ColorChannel::rle_encoded_components`.  `bytes_per_row` is
`self.data.len() as u32 / image_height`; the row slices
`&self.data[y*bytes_per_row .. (y+1)*bytes_per_row]` are modelled by
`drop`/`take` (they are always in range, see the C10 theorem).  Each row
length is written as a big-endian `u16` (`line_length as u16`). -/
def ColorChannel.rleEncodedComponents (ch : ColorChannel) (imageHeight : Nat) :
    Except WriteError RleComponents :=
  if imageHeight = 0 then .error .invalidImage
  else
    let bytesPerRow := ch.data.length % 4294967296 / imageHeight
    let encodedRows := (List.range imageHeight).map
      (fun y => encoded ((ch.data.drop (y * bytesPerRow)).take bytesPerRow))
    .ok ⟨(encodedRows.map (fun r => u16be r.length)).flatten, encodedRows.flatten⟩

/-- `ColorChannel::rle_encoded_data` — line lengths followed by the data. -/
def ColorChannel.rleEncodedData (ch : ColorChannel) (imageHeight : Nat) :
    Except WriteError (List Nat) :=
  match ch.rleEncodedComponents imageHeight with
  | .error e => .error e
  | .ok r => .ok (r.line_lengths ++ r.data)

/-- `ColorChannel::compressed_data` — `&mut self` is modelled by returning
the updated channel alongside the result; an early error return leaves the
channel unchanged. -/
def ColorChannel.compressedData (ch : ColorChannel) (imageHeight : Nat) :
    Except WriteError CompressedDataResult × ColorChannel :=
  if ch.data.length ≤ 2 then
    (.ok ⟨ch.data, .rawData⟩, ch)
  else
    match ch.cache with
    | some cd => (.ok ⟨cd, .rle⟩, ch)
    | none =>
        match ch.rleEncodedData imageHeight with
        | .error e => (.error e, ch)
        | .ok cd => (.ok ⟨cd, .rle⟩, { ch with cache := some cd })

/-! ## Layers (`layer.rs`, `layer/group.rs`) -/

structure LayerBase where
  bounds : Rect
  number_of_channels : Int
  channels : List ColorChannel
  blend_mode : BlendMode
  opacity : Nat
  is_hidden : Bool
  name : Option RStr
  image : Option Image
  additional_layer_information : Option (List Nat)
  divider_type : DividerType
  deriving Repr, DecidableEq

/-- `Layer` — the struct's `layer_type` field is `Image` or
`Group(GroupInfo { layers })`; the group constructor carries the
`GroupInfo` children inline, and `base` holds every other field. -/
inductive Layer where
  | image (base : LayerBase)
  | group (base : LayerBase) (children : List Layer)
  deriving Repr

def Layer.base : Layer → LayerBase
  | .image b => b
  | .group b _ => b

def Layer.withBase : Layer → LayerBase → Layer
  | .image _, b => .image b
  | .group _ cs, b => .group b cs

/-- `Layer::new`. -/
def Layer.new (bounds : Rect) : Layer :=
  .image ⟨bounds, 4, [], .normal, 255, false, none, none, none, .other⟩

/-- `Layer::group`. -/
def Layer.mkGroup (childLayers : List Layer) (isOpen : Bool) : Layer :=
  .group ⟨Rect.zero, 4, [], .normal, 255, false, none, none, none,
    if isOpen then .openFolder else .closedFolder⟩ childLayers

/-- The base of `Layer::group_marker`: zero bounds, four empty channels in
order alpha, red, green, blue, name `"</Layer group>"` (ASCII, so its
UTF-8 bytes and UTF-16 code units coincide), and the 16-byte
`"8BIM" "lsct" 4 3` additional-information block. -/
def groupMarkerBase : LayerBase where
  bounds := Rect.zero
  number_of_channels := 4
  channels := [ColorChannel.new .alpha 0, ColorChannel.new .red 0,
    ColorChannel.new .green 0, ColorChannel.new .blue 0]
  blend_mode := .normal
  opacity := 255
  is_hidden := false
  name := some ⟨[0x3c, 0x2f, 0x4c, 0x61, 0x79, 0x65, 0x72, 0x20, 0x67, 0x72,
      0x6f, 0x75, 0x70, 0x3e],
    [0x3c, 0x2f, 0x4c, 0x61, 0x79, 0x65, 0x72, 0x20, 0x67, 0x72,
      0x6f, 0x75, 0x70, 0x3e]⟩
  image := none
  additional_layer_information := some (RESOURCE_SIGNATURE ++ SECTION_DIVIDER_KEY
    ++ u32be 4 ++ u32be DividerType.sectionDivider.rawValue)
  divider_type := .other

/-- `Layer::group_marker`. -/
def Layer.groupMarker : Layer := .image groupMarkerBase

/-- `Layer::update_channel_data` on an image layer's base.  Returns `none`
for the `panic!("No image for layer.")` path.  The declared channel length
`(width * height) as usize` is computed in `u32`. -/
def LayerBase.updateChannelData (b : LayerBase) : Option LayerBase :=
  let b :=
    if b.image = none ∧ b.bounds ≠ Rect.zero then
      { b with image := some (Image.empty ⟨u32OfInt b.bounds.size.width,
          u32OfInt b.bounds.size.height⟩) }
    else b
  match b.image with
  | none => none
  | some img =>
      let len := img.size.width * img.size.height % 4294967296
      some { b with channels :=
        [⟨len, .alpha, img.plane 3, none⟩, ⟨len, .red, img.plane 0, none⟩,
         ⟨len, .green, img.plane 1, none⟩, ⟨len, .blue, img.plane 2, none⟩] }

/-- `Layer::update_channel_data` — returns immediately for groups. -/
def Layer.updateChannelData : Layer → Option Layer
  | .group b cs => some (.group b cs)
  | .image b => b.updateChannelData.map .image

/-- The per-channel loop of `layer_encoded_image`: compression tag then
payload; a channel whose compression fails is skipped
(`let Ok(compressed) = … else { continue; }`). -/
def encodedImageChannels (height : Nat) : List ColorChannel → List Nat × List ColorChannel
  | [] => ([], [])
  | ch :: rest =>
      let (res, ch') := ch.compressedData height
      let (ds, rest') := encodedImageChannels height rest
      match res with
      | .error _ => (ds, ch' :: rest')
      | .ok r => (i16be r.compression.rawValue ++ r.data ++ ds, ch' :: rest')

/-- The per-channel loop of `layer_record_data`: channel type, then payload
size + 2; the size field is skipped when compression fails
(`let Ok(result) = … else { continue; }` after the type was written). -/
def recordChannels (height : Nat) : List ColorChannel → List Nat × List ColorChannel
  | [] => ([], [])
  | ch :: rest =>
      let (res, ch') := ch.compressedData height
      let (ds, rest') := recordChannels height rest
      match res with
      | .error _ => (i16be ch.color_type.rawValue ++ ds, ch' :: rest')
      | .ok r => (i16be ch.color_type.rawValue ++ u32be (r.data.length + 2) ++ ds,
          ch' :: rest')

/-- `Layer::layer_encoded_image` (the channel population via
`update_channel_data` dispatches on the layer type, hence the `Layer`
argument). -/
def Layer.layerEncodedImage (l : Layer) : Option (List Nat × Layer) := do
  let l ← if l.base.channels = [] then l.updateChannelData else some l
  let height := u32OfInt l.base.bounds.size.height
  let (bytes, chs) := encodedImageChannels height l.base.channels
  some (bytes, l.withBase { l.base with channels := chs })

/-- `Layer::layer_record_data` (as above, `update_channel_data` dispatches
on the layer type: a group keeps its empty channel list and hence writes no
channel-information entries). -/
def Layer.layerRecordData (l : Layer) : Option (List Nat × Layer) := do
  let boundsBytes := i32be l.base.bounds.minY ++ i32be l.base.bounds.minX
    ++ i32be l.base.bounds.maxY ++ i32be l.base.bounds.maxX
  let l ← if l.base.channels = [] then l.updateChannelData else some l
  let (chanInfo, chs) := recordChannels (u32OfInt l.base.bounds.height) l.base.channels
  let extra := u32be 0 ++ u32be 0 ++ pad (pascalData l.base.name) 4
    ++ unicodeData l.base.name ++ l.base.additional_layer_information.getD []
  some (boundsBytes ++ i16be l.base.number_of_channels ++ chanInfo
    ++ RESOURCE_SIGNATURE ++ l.base.blend_mode.asStr
    ++ u8byte l.base.opacity ++ [0x00] ++ [if l.base.is_hidden then 0x02 else 0x00]
    ++ [0x00] ++ u32be extra.length ++ extra,
    l.withBase { l.base with channels := chs })

mutual

/-- `Layer::encoded_image` (dispatch on the layer type).  The group branch
operates on a clone of its `GroupInfo` which the source discards, so only
an image layer's `&mut self` threading is observable. -/
def Layer.encodedImage : Layer → Option (List Nat × Layer)
  | .image b => (Layer.image b).layerEncodedImage
  | .group b children => do
      let zeros := (List.replicate b.number_of_channels.toNat (i16be 0)).flatten
      let inner ← Layer.encodedImageList children
      some (zeros ++ inner ++ zeros, Layer.group b children)

/-- The child loop of `group_encoded_image`. -/
def Layer.encodedImageList : List Layer → Option (List Nat)
  | [] => some []
  | l :: rest => do
      let (d, _) ← l.encodedImage
      let ds ← Layer.encodedImageList rest
      some (d ++ ds)

end

mutual

/-- `Layer::record_data` run on a layer whose base has been replaced by
`b` (the zero-bounds promotion in `group_record_data` rewrites a child's
bounds just before the recursive call; passing the rewritten base
separately keeps the recursion structural). -/
def Layer.recordDataAux : Layer → LayerBase → Option (List Nat × Layer)
  | .image _, b => (Layer.image b).layerRecordData
  | .group _ children, b => do
      let (markerData, _) ← Layer.groupMarker.layerRecordData
      let childData ← Layer.recordDataList children b.bounds
      let (ownData, l') ← (Layer.group b children).layerRecordData
      some (markerData ++ childData ++ ownData, l')

/-- The child loop of `group_record_data`, including the promotion of a
child's zero bounds to the group's own bounds. -/
def Layer.recordDataList : List Layer → Rect → Option (List Nat)
  | [], _ => some []
  | l :: rest, parentBounds => do
      let lb := if l.base.bounds = Rect.zero
        then { l.base with bounds := parentBounds } else l.base
      let (d, _) ← Layer.recordDataAux l lb
      let ds ← Layer.recordDataList rest parentBounds
      some (d ++ ds)

end

/-- `Layer::record_data`. -/
def Layer.recordData (l : Layer) : Option (List Nat × Layer) :=
  Layer.recordDataAux l l.base

mutual

/-- The per-layer contribution to `LayerContainer::number_of_layers`
(`count += 1`, plus `info.number_of_layers() + 1` for a group). -/
def Layer.numberOfLayersInc : Layer → Nat
  | .image _ => 1
  | .group _ cs => 1 + Layer.numberOfLayersList cs + 1

/-- `LayerContainer::number_of_layers` over a layer list. -/
def Layer.numberOfLayersList : List Layer → Nat
  | [] => 0
  | l :: rest => Layer.numberOfLayersInc l + Layer.numberOfLayersList rest

end

/-! ## Documents (`document.rs`, `image.rs`, `layer_container.rs`) -/

structure Document where
  number_of_channels : Nat
  size : SizeU
  bits_per_channel : Nat
  color_mode : ColorMode
  preview_image : Option Image
  layers : List Layer
  deriving Repr

/-- `Document::new`. -/
def Document.new : Document := ⟨4, ⟨0, 0⟩, 1, .bitmap, none, []⟩

/-- `LayerContainer::number_of_layers` for the document (fully recursive;
each group counts twice). -/
def Document.numberOfLayers (d : Document) : Nat :=
  Layer.numberOfLayersList d.layers

/-- `LayerContainer::all_layers` for the document — one level of flattening
only: each group is followed by its *direct* children (the default trait
method appends `info.layers()`, not a recursive flattening). -/
def Document.allLayers (d : Document) : List Layer :=
  d.layers.flatMap (fun l =>
    match l with
    | .group _ cs => l :: cs
    | .image _ => [l])

/-- The document's full extent as a rectangle (`self.size.into()` with zero
origin), used by the zero-bounds promotion. -/
def Document.extent (d : Document) : Rect :=
  ⟨⟨0, 0⟩, ⟨(d.size.width : Int), (d.size.height : Int)⟩⟩

/-- `image::psd_data` (the whole-image preview section).  Any failure is
`none`. -/
def psdData (img : Image) (compression : ImageCompression) : Option (List Nat) :=
  match compression with
  | .zipWithoutPrediction => none  -- `WriteError::UnsupportedCompression`
  | .zipWithPrediction => none
  | _ =>
      let len := img.size.width * img.size.height % 4294967296
      let red : ColorChannel := ⟨len, .red, img.plane 0, none⟩
      let green : ColorChannel := ⟨len, .green, img.plane 1, none⟩
      let blue : ColorChannel := ⟨len, .blue, img.plane 2, none⟩
      let alpha : ColorChannel := ⟨len, .alpha, img.plane 3, none⟩
      let head := i16be compression.rawValue
      if compression = .rle then
        match red.rleEncodedComponents img.size.height,
            green.rleEncodedComponents img.size.height,
            blue.rleEncodedComponents img.size.height,
            alpha.rleEncodedComponents img.size.height with
        | .ok r, .ok g, .ok b, .ok a =>
            some (head ++ r.line_lengths ++ g.line_lengths ++ b.line_lengths
              ++ a.line_lengths ++ r.data ++ g.data ++ b.data ++ a.data)
        | _, _, _, _ => none
      else
        some (head ++ red.data ++ green.data ++ blue.data ++ alpha.data)

/-- The in-loop zero-bounds promotion of `file_data`'s record pass
(`if layer.bounds == Rect::zero() { layer.bounds = ... }`). -/
def promoteZeroBounds (extent : Rect) (l : Layer) : Layer :=
  if l.base.bounds = Rect.zero then l.withBase { l.base with bounds := extent }
  else l

/-- The record-writing loop of `file_data`: promote zero bounds to the
document extent, then write each flattened layer's `layer_record_data`
(note: the plain record writer, not the dispatching `record_data`),
threading the `&mut` channel updates into the layer list for the
subsequent image pass. -/
def recordPass (extent : Rect) : List Layer → Option (List Nat × List Layer)
  | [] => some ([], [])
  | l :: rest => do
      let (d, l') ← (promoteZeroBounds extent l).layerRecordData
      let (ds, rest') ← recordPass extent rest
      some (d ++ ds, l' :: rest')

/-- The image-writing loop of `file_data` (`encoded_image` per flattened
layer). -/
def imagePass : List Layer → Option (List Nat)
  | [] => some []
  | l :: rest => do
      let (d, _) ← l.encodedImage
      let ds ← imagePass rest
      some (d ++ ds)

/-- The hard-coded resolution-information payload. -/
def resolutionInformationData : List Nat :=
  [0x00, 0x48, 0x00, 0x00, 0x00, 0x01, 0x00, 0x01,
   0x00, 0x48, 0x00, 0x00, 0x00, 0x01, 0x00, 0x01]

/-- The header section of `file_data` (26 bytes plus the zero
colour-mode-data length). -/
def headerBytes (d : Document) : List Nat :=
  FILE_SIGNATURE ++ i16be 1 ++ List.replicate 6 0
    ++ u16be d.number_of_channels ++ u32be d.size.height ++ u32be d.size.width
    ++ i16be 8 ++ i16be ColorMode.rgb.rawValue ++ u32be 0

/-- The `image_resources_file_stream` contents of `file_data`. -/
def imageResourcesBytes (d : Document) : List Nat :=
  RESOURCE_SIGNATURE ++ i16be RESOLUTION_INFORMATION
    ++ i16be 0 ++ u32be resolutionInformationData.length ++ resolutionInformationData
    ++ RESOURCE_SIGNATURE ++ i16be LAYER_STATE ++ i16be 0 ++ u32be 2 ++ u16be 0
    ++ RESOURCE_SIGNATURE ++ i16be LAYERS_GROUP_INFORMATION ++ i16be 0
    ++ u32be (d.numberOfLayers * 2)
    ++ (List.replicate d.numberOfLayers (i16be 0)).flatten

/-- The padded `layer_info` data of `file_data`: negated layer count, layer
records, layer image blocks, zero-padded to an even length. -/
def layerInfoData (d : Document) (records images : List Nat) : List Nat :=
  pad (i16be (i16OfNat d.numberOfLayers * -1) ++ records ++ images) 2

/-- The `layer_and_mask_info_file_stream` contents of `file_data`. -/
def layerAndMaskData (d : Document) (records images : List Nat) : List Nat :=
  u32be (layerInfoData d records images).length ++ layerInfoData d records images
    ++ u32be 0

/-- `Document::file_data`. -/
def Document.fileData (d : Document) : Option (List Nat) := do
  -- HEADER SECTION and IMAGE RESOURCES SECTION
  -- LAYER AND MASK INFORMATION SECTION
  let (records, layers') ← recordPass d.extent d.allLayers
  let images ← imagePass layers'
  let body := headerBytes d
    ++ u32be (imageResourcesBytes d).length ++ imageResourcesBytes d
    ++ u32be (layerAndMaskData d records images).length
    ++ layerAndMaskData d records images
  -- IMAGE DATA SECTION
  match d.preview_image with
  | none => some body
  | some img => do
      let pv ← psdData img .rle
      some (body ++ pv)

/-! ## Definitions following the spec's words (for refinement claims) -/

/-- The record layout the spec claims for `file_data` (C1): every top-level
layer contributes its full post-order `record_data` — group marker, then
children recursively, then the opener — with zero bounds promoted to the
document extent.  (`Layer.recordDataList` is exactly `record_data`'s child
loop, here applied at document level.) -/
def Document.specPostOrderRecords (d : Document) : Option (List Nat) :=
  Layer.recordDataList d.layers d.extent

/-- Reads the `i`-th big-endian `u16` value of a byte list. -/
def readU16 (bs : List Nat) (i : Nat) : Nat :=
  256 * bs.getD (2 * i) 0 + bs.getD (2 * i + 1) 0

/-- Reads a byte list's first two bytes as a big-endian two's-complement
`i16`. -/
def readI16 (bs : List Nat) : Int :=
  let v : Nat := 256 * bs.getD 0 0 + bs.getD 1 0
  if v < 32768 then (v : Int) else (v : Int) - 65536

end Psd

namespace Psd

/-! ### Decoder unfolding lemmas -/

theorem rleDecodeGo_congr :
    ∀ (f₁ f₂ : Nat) (l : List Nat), l.length ≤ f₁ → l.length ≤ f₂ →
      rleDecodeGo f₁ l = rleDecodeGo f₂ l := by
  intro f₁
  induction f₁ with
  | zero =>
      intro f₂ l h1 _
      have hl : l = [] := List.eq_nil_of_length_eq_zero (by omega)
      subst hl
      cases f₂ <;> rfl
  | succ f ih =>
      intro f₂ l h1 h2
      match f₂, l with
      | 0, l =>
          have hl : l = [] := List.eq_nil_of_length_eq_zero (by omega)
          subst hl; rfl
      | f₂ + 1, [] => rfl
      | f₂ + 1, h :: rest =>
          have hrest : rest.length ≤ f := by
            simp only [List.length_cons] at h1; omega
          have hrest₂ : rest.length ≤ f₂ := by
            simp only [List.length_cons] at h2; omega
          simp only [rleDecodeGo]
          by_cases hh : h ≤ 127
          · simp only [if_pos hh]
            congr 1
            exact ih f₂ (rest.drop (h + 1))
              (le_trans (by simp) hrest) (le_trans (by simp) hrest₂)
          · by_cases h8 : h = 128
            · simp only [if_neg hh, if_pos h8]
              exact ih f₂ rest hrest hrest₂
            · simp only [if_neg hh, if_neg h8]
              match rest, hrest, hrest₂ with
              | [], _, _ => rfl
              | b :: rest', hr, hr₂ =>
                  simp only [List.length_cons] at hr hr₂
                  show List.replicate (257 - h) b ++ rleDecodeGo f rest' =
                    List.replicate (257 - h) b ++ rleDecodeGo f₂ rest'
                  congr 1
                  exact ih f₂ rest' (by omega) (by omega)

theorem rleDecodeGo_eq (f : Nat) (l : List Nat) (h : l.length ≤ f) :
    rleDecodeGo f l = rleDecode l :=
  rleDecodeGo_congr f l.length l h le_rfl

theorem rleDecode_nil : rleDecode [] = [] := rfl

theorem rleDecode_cons_lit (h : Nat) (rest : List Nat) (hh : h ≤ 127) :
    rleDecode (h :: rest) = rest.take (h + 1) ++ rleDecode (rest.drop (h + 1)) := by
  show rleDecodeGo (h :: rest).length (h :: rest) = _
  simp only [List.length_cons, rleDecodeGo, if_pos hh]
  congr 1
  exact rleDecodeGo_eq _ _ (by simp only [List.length_drop]; omega)

theorem rleDecode_cons_rep (h b : Nat) (t : List Nat) (h1 : 129 ≤ h) :
    rleDecode (h :: b :: t) = List.replicate (257 - h) b ++ rleDecode t := by
  show rleDecodeGo (h :: b :: t).length (h :: b :: t) = _
  simp only [List.length_cons, rleDecodeGo, if_neg (by omega : ¬ h ≤ 127),
    if_neg (by omega : ¬ h = 128)]
  congr 1
  exact rleDecodeGo_eq _ _ (Nat.le_succ _)

theorem rleDecode_lit (l t : List Nat) (h1 : l ≠ []) (h2 : l.length ≤ 128) :
    rleDecode ((l.length - 1) :: (l ++ t)) = l ++ rleDecode t := by
  have hlen : 1 ≤ l.length := List.length_pos.mpr h1
  rw [rleDecode_cons_lit _ _ (by omega)]
  have hs : l.length - 1 + 1 = l.length := by omega
  rw [hs, List.take_left, List.drop_left]

theorem rleDecode_rep (n b : Nat) (t : List Nat) (h1 : 3 ≤ n) (h2 : n ≤ 128) :
    rleDecode ((257 - n) :: b :: t) = List.replicate n b ++ rleDecode t := by
  rw [rleDecode_cons_rep _ _ _ (by omega)]
  congr 2
  omega

/-! ### `Packets` facts -/

theorem Packets.decode {e d : List Nat} (h : Packets e d) : rleDecode e = d := by
  induction h with
  | nil => rfl
  | lit l e d h1 h2 _ ih => rw [rleDecode_lit l e h1 h2, ih]
  | rep n b e d h1 h2 _ ih => rw [rleDecode_rep n b e h1 h2, ih]

theorem Packets.append {e₁ d₁ e₂ d₂ : List Nat}
    (h1 : Packets e₁ d₁) (h2 : Packets e₂ d₂) :
    Packets (e₁ ++ e₂) (d₁ ++ d₂) := by
  induction h1 with
  | nil => simpa using h2
  | lit l e d hl1 hl2 _ ih =>
      have := Packets.lit l (e ++ e₂) (d ++ d₂) hl1 hl2 ih
      simpa using this
  | rep n b e d hr1 hr2 _ ih =>
      have := Packets.rep n b (e ++ e₂) (d ++ d₂) hr1 hr2 ih
      simpa using this

theorem Packets.litSingle (l : List Nat) (h1 : l ≠ []) (h2 : l.length ≤ 128) :
    Packets ((l.length - 1) :: l) l := by
  have := Packets.lit l [] [] h1 h2 Packets.nil
  simpa using this

theorem Packets.repSingle (n b : Nat) (h1 : 3 ≤ n) (h2 : n ≤ 128) :
    Packets [257 - n, b] (List.replicate n b) := by
  have := Packets.rep n b [] [] h1 h2 Packets.nil
  simpa using this

theorem goodPacketsGo_congr :
    ∀ (f₁ f₂ : Nat) (l : List Nat), l.length ≤ f₁ → l.length ≤ f₂ →
      goodPacketsGo f₁ l = goodPacketsGo f₂ l := by
  intro f₁
  induction f₁ with
  | zero =>
      intro f₂ l h1 _
      have hl : l = [] := List.eq_nil_of_length_eq_zero (by omega)
      subst hl
      cases f₂ <;> rfl
  | succ f ih =>
      intro f₂ l h1 h2
      match f₂, l with
      | 0, l =>
          have hl : l = [] := List.eq_nil_of_length_eq_zero (by omega)
          subst hl; rfl
      | f₂ + 1, [] => rfl
      | f₂ + 1, h :: rest =>
          have hrest : rest.length ≤ f := by
            simp only [List.length_cons] at h1; omega
          have hrest₂ : rest.length ≤ f₂ := by
            simp only [List.length_cons] at h2; omega
          simp only [goodPacketsGo]
          by_cases hh : h ≤ 127
          · simp only [if_pos hh]
            congr 1
            exact ih f₂ (rest.drop (h + 1))
              (le_trans (by simp) hrest) (le_trans (by simp) hrest₂)
          · by_cases h9 : 129 ≤ h ∧ h ≤ 254
            · simp only [if_neg hh, if_pos h9]
              match rest, hrest, hrest₂ with
              | [], _, _ => rfl
              | b :: rest', hr, hr₂ =>
                  simp only [List.length_cons] at hr hr₂
                  exact ih f₂ rest' (by omega) (by omega)
            · simp only [if_neg hh, if_neg h9]

theorem goodPacketsGo_eq (f : Nat) (l : List Nat) (h : l.length ≤ f) :
    goodPacketsGo f l = goodPackets l :=
  goodPacketsGo_congr f l.length l h le_rfl

theorem Packets.good {e d : List Nat} (h : Packets e d) : goodPackets e = true := by
  induction h with
  | nil => rfl
  | lit l e d h1 h2 _ ih =>
      have hlen : 1 ≤ l.length := List.length_pos.mpr h1
      show goodPacketsGo ((l.length - 1) :: (l ++ e)).length _ = true
      simp only [List.length_cons, goodPacketsGo,
        if_pos (show l.length - 1 ≤ 127 by omega)]
      rw [Bool.and_eq_true]
      constructor
      · simp only [List.length_append, decide_eq_true_eq]; omega
      · have hd : (l ++ e).drop (l.length - 1 + 1) = e := by
          rw [show l.length - 1 + 1 = l.length by omega, List.drop_left]
        rw [hd, goodPacketsGo_eq _ _ (by simp only [List.length_append]; omega)]
        exact ih
  | rep n b e d h1 h2 _ ih =>
      show goodPacketsGo ((257 - n) :: b :: e).length _ = true
      simp only [List.length_cons, goodPacketsGo,
        if_neg (show ¬ 257 - n ≤ 127 by omega),
        if_pos (show 129 ≤ 257 - n ∧ 257 - n ≤ 254 by omega)]
      rw [goodPacketsGo_eq _ _ (Nat.le_succ _)]
      exact ih

/-! ### Characterising one encoder step

Each lemma fixes the branch taken by `encStep` from explicit hypotheses on
the computed `repeat_count` and on the pending run. -/

theorem encFinish_false (out run : List Nat) (rc b : Nat) :
    encStep.encFinish out run rc b false = ⟨out, run, some b, rc⟩ := rfl

theorem encFinish_true_rep (out run : List Nat) (rc b : Nat) (h : 3 ≤ rc) :
    encStep.encFinish out run rc b true =
      ⟨out ++ [255 - (rc - 1) + 1, b], run, some b, rc⟩ := by
  simp [encStep.encFinish, h]

theorem encFinish_true_lit (out run : List Nat) (rc b : Nat) (h : rc < 3) :
    encStep.encFinish out run rc b true = ⟨flushLit out run, run, some b, rc⟩ := by
  simp [encStep.encFinish, Nat.not_le.mpr h]

theorem encStep_run (out run : List Nat) (prev : Option Nat) (prc b : Nat)
    (isEnd : Bool) (rc : Nat)
    (hrc : (if prev = some b ∧ prc ≠ 128 then prc + 1 else 1) = rc)
    (h3 : rc ≠ 3) (h128 : (run ++ [b]).length ≠ 128) (hbr : ¬(2 < prc ∧ rc = 1)) :
    encStep ⟨out, run, prev, prc⟩ b isEnd =
      Sum.inl (encStep.encFinish out (run ++ [b]) rc b isEnd) := by
  simp only [encStep, hrc, if_neg h3, if_neg h128, if_neg hbr]

theorem encStep_flush128 (out run : List Nat) (prev : Option Nat) (prc b : Nat)
    (isEnd : Bool) (rc : Nat)
    (hrc : (if prev = some b ∧ prc ≠ 128 then prc + 1 else 1) = rc)
    (h3 : rc ≠ 3) (h128 : (run ++ [b]).length = 128) :
    encStep ⟨out, run, prev, prc⟩ b isEnd =
      Sum.inl (encStep.encFinish
        (out ++ ((run ++ [b]).length - 1) :: (run ++ [b])) [] 0 b isEnd) := by
  simp only [encStep, hrc, if_neg h3, if_pos h128]
  have : ¬(2 < prc ∧ (0 : Nat) = 1) := by omega
  simp only [if_neg this]

theorem encStep_rc3 (out run : List Nat) (prev : Option Nat) (prc b : Nat)
    (isEnd : Bool)
    (hrc : (if prev = some b ∧ prc ≠ 128 then prc + 1 else 1) = 3) :
    encStep ⟨out, run, prev, prc⟩ b isEnd =
      Sum.inl (encStep.encFinish
        (flushLit out
          (if 3 ≤ (run ++ [b]).length then (run ++ [b]).take ((run ++ [b]).length - 3)
           else []))
        [] 3 b isEnd) := by
  simp only [encStep, hrc]
  norm_num

theorem encStep_break (out run : List Nat) (pb prc b : Nat) (isEnd : Bool)
    (hrc : (if (some pb : Option Nat) = some b ∧ prc ≠ 128 then prc + 1 else 1) = 1)
    (hprc : 2 < prc) (h128 : (run ++ [b]).length ≠ 128) :
    encStep ⟨out, run, some pb, prc⟩ b isEnd =
      Sum.inl (encStep.encFinish
        (out ++ [255 - (prc - 1) + 1, pb]) [b] 1 b isEnd) := by
  simp only [encStep, hrc, if_neg (by omega : ¬(1 : Nat) = 3), if_neg h128]
  simp [hprc]

/-! ### The encoder loop invariant -/

theorem inv_mk (out run : List Nat) (prev : Option Nat) (prc : Nat) (P : List Nat) :
    Inv ⟨out, run, prev, prc⟩ P ↔
      ∃ Q, Packets out Q ∧
        ((3 ≤ prc ∧ prc ≤ 128 ∧ ∃ b, prev = some b ∧
            P = Q ++ List.replicate prc b ∧ run = List.replicate (prc - 3) b)
         ∨ (prc ≤ 2 ∧ P = Q ++ run ∧ run.length ≤ 127 ∧
            (prc = 0 ∨ ∃ b, prev = some b ∧ List.replicate prc b <:+ run))) :=
  Iff.rfl

theorem inv_init : Inv ⟨[], [], none, 0⟩ [] := by
  rw [inv_mk]
  refine ⟨[], Packets.nil, Or.inr ?_⟩
  simp

/-- Advancing a pending literal run by one byte (`repeat_count` result 1
or 2) preserves the invariant, whether or not the 128-byte flush fires. -/
theorem lit_advance (out run : List Nat) (prev : Option Nat) (prc b rc : Nat)
    (Q P : List Nat) (hQ : Packets out Q) (hP : P = Q ++ run)
    (hlen : run.length ≤ 127)
    (hrc : (if prev = some b ∧ prc ≠ 128 then prc + 1 else 1) = rc)
    (hrc1 : 1 ≤ rc) (hrc2 : rc ≤ 2) (hprc : prc ≤ 2)
    (hsuf : List.replicate rc b <:+ run ++ [b]) :
    ∃ s', encStep ⟨out, run, prev, prc⟩ b false = Sum.inl s' ∧ Inv s' (P ++ [b]) := by
  by_cases h128 : (run ++ [b]).length = 128
  · refine ⟨_, encStep_flush128 _ _ _ _ _ _ _ hrc (by omega) h128, ?_⟩
    rw [encFinish_false, inv_mk]
    refine ⟨Q ++ (run ++ [b]), ?_, Or.inr ⟨by omega, ?_, by simp, Or.inl rfl⟩⟩
    · exact hQ.append (Packets.litSingle _ (by simp) (by omega))
    · simp [hP]
  · refine ⟨_, encStep_run _ _ _ _ _ _ _ hrc (by omega) h128 (by omega), ?_⟩
    rw [encFinish_false, inv_mk]
    refine ⟨Q, hQ, Or.inr ⟨hrc2, by simp [hP], ?_, Or.inr ⟨b, rfl, hsuf⟩⟩⟩
    simp only [List.length_append, List.length_singleton] at h128 ⊢
    omega

/-- Invariant preservation for a non-final encoder step. -/
theorem encStep_false_inv (s : EncState) (b : Nat) (P : List Nat) (h : Inv s P) :
    ∃ s', encStep s b false = Sum.inl s' ∧ Inv s' (P ++ [b]) := by
  obtain ⟨out, run, prev, prc⟩ := s
  rw [inv_mk] at h
  obtain ⟨Q, hQ, hmode⟩ := h
  rcases hmode with ⟨hp3, hp128, pb, hprev, hP, hrun⟩ | ⟨hp2, hP, hlen, hsuf⟩
  · -- A repeat run is forming.
    subst hprev hP hrun
    by_cases hb : pb = b ∧ prc ≠ 128
    · -- The incoming byte continues the repeat.
      obtain ⟨hbe, hne⟩ := hb
      subst hbe
      have hrc : (if (some pb : Option Nat) = some pb ∧ prc ≠ 128
          then prc + 1 else 1) = prc + 1 := if_pos ⟨rfl, hne⟩
      refine ⟨_, encStep_run _ _ _ _ _ _ _ hrc (by omega)
        (by simp only [List.length_append, List.length_replicate,
              List.length_singleton]; omega)
        (by omega), ?_⟩
      rw [encFinish_false, inv_mk]
      refine ⟨Q, hQ, Or.inl ⟨by omega, by omega, pb, rfl, ?_, ?_⟩⟩
      · rw [List.replicate_succ', List.append_assoc]
      · rw [← List.replicate_succ']
        congr 1
        omega
    · -- The repeat breaks: emit the repeat packet.
      have hrc : (if (some pb : Option Nat) = some b ∧ prc ≠ 128
          then prc + 1 else 1) = 1 := if_neg (by simpa using hb)
      refine ⟨_, encStep_break _ _ _ _ _ _ hrc (by omega)
        (by simp only [List.length_append, List.length_replicate,
              List.length_singleton]; omega), ?_⟩
      rw [encFinish_false, inv_mk]
      refine ⟨Q ++ List.replicate prc pb, ?_, Or.inr ⟨by omega, by simp, by simp,
        Or.inr ⟨b, rfl, by simp⟩⟩⟩
      rw [show 255 - (prc - 1) + 1 = 257 - prc by omega]
      exact hQ.append (Packets.repSingle prc pb hp3 hp128)
  · -- A literal run is pending.
    rcases hsuf with h0 | ⟨b₀, hprev, hsuf⟩
    · -- `prc = 0`: the repeat count is reset to 1 either way.
      subst h0
      have hrc : (if prev = some b ∧ (0 : Nat) ≠ 128 then 0 + 1 else 1) = 1 := by
        split <;> rfl
      exact lit_advance out run prev 0 b 1 Q P hQ hP hlen hrc (by omega) (by omega)
        (by omega) (by simp only [List.replicate_one]; exact List.suffix_append run [b])
    · subst hprev
      by_cases hbe : b₀ = b
      · subst hbe
        rcases Nat.lt_or_ge prc 2 with hlt | hge
        · -- `prc ≤ 1`: the run keeps growing.
          have hrc : (if (some b₀ : Option Nat) = some b₀ ∧ prc ≠ 128
              then prc + 1 else 1) = prc + 1 := if_pos ⟨rfl, by omega⟩
          obtain ⟨t, ht⟩ := hsuf
          refine lit_advance out run _ prc b₀ (prc + 1) Q P hQ hP hlen hrc (by omega)
            (by omega) (by omega) ⟨t, ?_⟩
          rw [List.replicate_succ', ← List.append_assoc, ht]
        · -- `prc = 2`: the third equal byte starts a repeat run.
          have hprc2 : prc = 2 := by omega
          subst hprc2
          have hrc : (if (some b₀ : Option Nat) = some b₀ ∧ (2 : Nat) ≠ 128
              then 2 + 1 else 1) = 3 := if_pos ⟨rfl, by omega⟩
          obtain ⟨t, ht⟩ := hsuf
          refine ⟨_, encStep_rc3 _ _ _ _ _ _ hrc, ?_⟩
          rw [encFinish_false, inv_mk]
          have hrun_eq : run ++ [b₀] = t ++ [b₀, b₀, b₀] := by
            rw [← ht]
            simp [List.replicate]
          have htlen : run.length = t.length + 2 := by
            rw [← ht]
            simp [List.replicate]
          have hF : (if 3 ≤ (run ++ [b₀]).length
              then (run ++ [b₀]).take ((run ++ [b₀]).length - 3) else []) = t := by
            rw [hrun_eq, if_pos (by simp)]
            have : (t ++ [b₀, b₀, b₀]).length - 3 = t.length := by simp
            rw [this, List.take_left]
          rw [hF]
          refine ⟨Q ++ t, ?_, Or.inl ⟨le_rfl, by omega, b₀, rfl, ?_, by simp⟩⟩
          · by_cases ht0 : t = []
            · subst ht0
              simpa [flushLit] using hQ
            · rw [flushLit, if_neg ht0]
              exact hQ.append (Packets.litSingle t ht0 (by omega))
          · rw [hP, ← ht]
            simp [List.replicate]
      · -- A different byte arrives: the run keeps growing as literals.
        have hrc : (if (some b₀ : Option Nat) = some b ∧ prc ≠ 128
            then prc + 1 else 1) = 1 := if_neg (by simp [hbe])
        exact lit_advance out run _ prc b 1 Q P hQ hP hlen hrc (by omega) (by omega)
          hp2 (by simp only [List.replicate_one]; exact List.suffix_append run [b])

/-- Finishing a pending literal run at the last input byte yields a complete
packet sequence. -/
theorem lit_advance_end (out run : List Nat) (prev : Option Nat) (prc b rc : Nat)
    (Q P : List Nat) (hQ : Packets out Q) (hP : P = Q ++ run)
    (hlen : run.length ≤ 127)
    (hrc : (if prev = some b ∧ prc ≠ 128 then prc + 1 else 1) = rc)
    (hrc1 : 1 ≤ rc) (hrc2 : rc ≤ 2) (hprc : prc ≤ 2) :
    ∃ s', encStep ⟨out, run, prev, prc⟩ b true = Sum.inl s' ∧
      Packets s'.output (P ++ [b]) := by
  by_cases h128 : (run ++ [b]).length = 128
  · refine ⟨_, encStep_flush128 _ _ _ _ _ _ _ hrc (by omega) h128, ?_⟩
    rw [encFinish_true_lit _ _ _ _ (by omega)]
    show Packets (flushLit (out ++ ((run ++ [b]).length - 1) :: (run ++ [b])) [])
      (P ++ [b])
    rw [show flushLit (out ++ ((run ++ [b]).length - 1) :: (run ++ [b])) [] =
        out ++ ((run ++ [b]).length - 1) :: (run ++ [b]) from rfl]
    have := hQ.append (Packets.litSingle (run ++ [b]) (by simp) (by omega))
    simpa [hP, List.append_assoc] using this
  · refine ⟨_, encStep_run _ _ _ _ _ _ _ hrc (by omega) h128 (by omega), ?_⟩
    rw [encFinish_true_lit _ _ _ _ (by omega)]
    show Packets (flushLit out (run ++ [b])) (P ++ [b])
    rw [flushLit, if_neg (by simp)]
    have := hQ.append (Packets.litSingle (run ++ [b]) (by simp)
      (by simp only [List.length_append, List.length_singleton]; omega))
    simpa [hP, List.append_assoc] using this

/-- The final encoder step always produces a complete packet sequence
decoding to the whole input. -/
theorem encStep_true_packets (s : EncState) (b : Nat) (P : List Nat)
    (h : Inv s P) :
    ∃ s', encStep s b true = Sum.inl s' ∧ Packets s'.output (P ++ [b]) := by
  obtain ⟨out, run, prev, prc⟩ := s
  rw [inv_mk] at h
  obtain ⟨Q, hQ, hmode⟩ := h
  rcases hmode with ⟨hp3, hp128, pb, hprev, hP, hrun⟩ | ⟨hp2, hP, hlen, hsuf⟩
  · -- A repeat run is forming.
    subst hprev hP hrun
    by_cases hb : pb = b ∧ prc ≠ 128
    · -- The incoming byte continues the repeat: emit the final repeat packet.
      obtain ⟨hbe, hne⟩ := hb
      subst hbe
      have hrc : (if (some pb : Option Nat) = some pb ∧ prc ≠ 128
          then prc + 1 else 1) = prc + 1 := if_pos ⟨rfl, hne⟩
      refine ⟨_, encStep_run _ _ _ _ _ _ _ hrc (by omega)
        (by simp only [List.length_append, List.length_replicate,
              List.length_singleton]; omega)
        (by omega), ?_⟩
      rw [encFinish_true_rep _ _ _ _ (by omega)]
      show Packets (out ++ [255 - (prc + 1 - 1) + 1, pb])
        ((Q ++ List.replicate prc pb) ++ [pb])
      rw [show 255 - (prc + 1 - 1) + 1 = 257 - (prc + 1) by omega]
      have := hQ.append (Packets.repSingle (prc + 1) pb (by omega) (by omega))
      simpa [List.replicate_succ', List.append_assoc] using this
    · -- The repeat breaks at the very last byte: a repeat packet followed by
      -- a one-byte literal packet.
      have hrc : (if (some pb : Option Nat) = some b ∧ prc ≠ 128
          then prc + 1 else 1) = 1 := if_neg (by simpa using hb)
      refine ⟨_, encStep_break _ _ _ _ _ _ hrc (by omega)
        (by simp only [List.length_append, List.length_replicate,
              List.length_singleton]; omega), ?_⟩
      rw [encFinish_true_lit _ _ _ _ (by omega)]
      show Packets (flushLit (out ++ [255 - (prc - 1) + 1, pb]) [b])
        ((Q ++ List.replicate prc pb) ++ [b])
      rw [flushLit, if_neg (by simp),
        show 255 - (prc - 1) + 1 = 257 - prc by omega]
      have h1 := hQ.append (Packets.repSingle prc pb hp3 hp128)
      have h2 := h1.append (Packets.litSingle [b] (by simp) (by simp))
      simpa [List.append_assoc] using h2
  · -- A literal run is pending.
    rcases hsuf with h0 | ⟨b₀, hprev, hsuf⟩
    · subst h0
      have hrc : (if prev = some b ∧ (0 : Nat) ≠ 128 then 0 + 1 else 1) = 1 := by
        split <;> rfl
      exact lit_advance_end out run prev 0 b 1 Q P hQ hP hlen hrc (by omega)
        (by omega) (by omega)
    · subst hprev
      by_cases hbe : b₀ = b
      · subst hbe
        rcases Nat.lt_or_ge prc 2 with hlt | hge
        · have hrc : (if (some b₀ : Option Nat) = some b₀ ∧ prc ≠ 128
              then prc + 1 else 1) = prc + 1 := if_pos ⟨rfl, by omega⟩
          exact lit_advance_end out run _ prc b₀ (prc + 1) Q P hQ hP hlen hrc
            (by omega) (by omega) (by omega)
        · -- `prc = 2`: flush the literal prefix, then emit a 3-repeat packet.
          have hprc2 : prc = 2 := by omega
          subst hprc2
          have hrc : (if (some b₀ : Option Nat) = some b₀ ∧ (2 : Nat) ≠ 128
              then 2 + 1 else 1) = 3 := if_pos ⟨rfl, by omega⟩
          obtain ⟨t, ht⟩ := hsuf
          refine ⟨_, encStep_rc3 _ _ _ _ _ _ hrc, ?_⟩
          rw [encFinish_true_rep _ _ _ _ (by omega)]
          have hrun_eq : run ++ [b₀] = t ++ [b₀, b₀, b₀] := by
            rw [← ht]
            simp [List.replicate]
          have htlen : run.length = t.length + 2 := by
            rw [← ht]
            simp [List.replicate]
          have hF : (if 3 ≤ (run ++ [b₀]).length
              then (run ++ [b₀]).take ((run ++ [b₀]).length - 3) else []) = t := by
            rw [hrun_eq, if_pos (by simp)]
            have : (t ++ [b₀, b₀, b₀]).length - 3 = t.length := by simp
            rw [this, List.take_left]
          rw [hF]
          show Packets (flushLit out t ++ [255 - (3 - 1) + 1, b₀]) (P ++ [b₀])
          rw [show 255 - (3 - 1) + 1 = 257 - 3 by omega]
          have hQt : Packets (flushLit out t) (Q ++ t) := by
            by_cases ht0 : t = []
            · subst ht0
              simpa [flushLit] using hQ
            · rw [flushLit, if_neg ht0]
              exact hQ.append (Packets.litSingle t ht0 (by omega))
          have := hQt.append (Packets.repSingle 3 b₀ (by omega) (by omega))
          have hPb : P ++ [b₀] = (Q ++ t) ++ List.replicate 3 b₀ := by
            rw [hP, ← ht]
            simp [List.replicate]
          rw [hPb]
          exact this
      · have hrc : (if (some b₀ : Option Nat) = some b ∧ prc ≠ 128
            then prc + 1 else 1) = 1 := if_neg (by simp [hbe])
        exact lit_advance_end out run _ prc b 1 Q P hQ hP hlen hrc (by omega)
          (by omega) hp2

/-- The encoder loop, started in an invariant state on a nonempty input,
produces a complete packet sequence decoding to everything consumed. -/
theorem encLoop_packets :
    ∀ (S : List Nat) (s : EncState) (P : List Nat), S ≠ [] → Inv s P →
      Packets (encLoop s S) (P ++ S) := by
  intro S
  induction S with
  | nil => intro s P h; exact absurd rfl h
  | cons b S ih =>
      intro s P _ hInv
      cases S with
      | nil =>
          obtain ⟨s', hs', hpk⟩ := encStep_true_packets s b P hInv
          simpa [encLoop, hs'] using hpk
      | cons b' S' =>
          obtain ⟨s', hs', hInv'⟩ := encStep_false_inv s b P hInv
          have := ih s' (P ++ [b]) (by simp) hInv'
          simp only [encLoop, hs']
          simpa [List.append_assoc] using this

/-- `rle::encoded` always produces a complete, well-formed packet sequence
that decodes to the input. -/
theorem encoded_packets (S : List Nat) : Packets (encoded S) S := by
  cases S with
  | nil => exact Packets.nil
  | cons b S => simpa using encLoop_packets (b :: S) ⟨[], [], none, 0⟩ [] (by simp) inv_init

/-! ### The encoder on constant input -/

theorem encLoop_single (s : EncState) (b : Nat) (s' : EncState)
    (h : encStep s b true = Sum.inl s') : encLoop s [b] = s'.output := by
  simp only [encLoop, h]

theorem encLoop_cons (s : EncState) (b b' : Nat) (rest : List Nat) (s' : EncState)
    (h : encStep s b false = Sum.inl s') :
    encLoop s (b :: b' :: rest) = encLoop s' (b' :: rest) := by
  simp only [encLoop, h]

theorem constTail_step (c j L : Nat) (hj : j ≤ 127) (hL : 1 ≤ L) :
    constTail c j (L + 1) = constTail c (j + 1) L := by
  cases L with
  | zero => omega
  | succ L' =>
      show constTail c j (L' + 2) = constTail c (j + 1) (L' + 1)
      simp only [constTail, if_neg (by omega : ¬ j = 128)]

theorem constTail_climb (c : Nat) :
    ∀ (k j L : Nat), j + k ≤ 128 → 1 ≤ L →
      constTail c j (k + L) = constTail c (j + k) L := by
  intro k
  induction k with
  | zero => intro j L _ _; simp
  | succ k ih =>
      intro j L hj hL
      rw [show k + 1 + L = (k + L) + 1 by omega,
        constTail_step c j (k + L) (by omega) (by omega), ih (j + 1) L (by omega) hL]
      congr 1
      omega

theorem constTail_128 (c L : Nat) (hL : 2 ≤ L) :
    constTail c 128 L = 129 :: c :: constTail c 1 (L - 1) := by
  obtain ⟨L', rfl⟩ : ∃ L', L = L' + 2 := ⟨L - 2, by omega⟩
  show constTail c 128 (L' + 2) = _
  simp only [constTail, if_true]
  norm_num

/-- The encoder loop on `L ≥ 1` remaining constant bytes, in phase `j` of
the 128-cycle, emits exactly `constTail c j L`. -/
theorem encLoop_const (c : Nat) :
    ∀ (L j : Nat) (out : List Nat), 1 ≤ j → j ≤ 128 → 1 ≤ L →
      encLoop ⟨out, List.replicate (runOf j) c, some c, j⟩ (List.replicate L c) =
        out ++ constTail c j L := by
  intro L
  induction L with
  | zero => intro j out _ _ h; omega
  | succ L ih =>
      intro j out hj1 hj128 _
      cases L with
      | zero =>
          -- The last input byte: `is_end` handling fires.
          rw [show List.replicate 1 c = [c] from rfl]
          by_cases hj : j = 128
          · subst hj
            have hrc : (if (some c : Option Nat) = some c ∧ (128 : Nat) ≠ 128
                then 128 + 1 else 1) = 1 := if_neg (by simp)
            have hstep := encStep_break out (List.replicate (runOf 128) c) c 128 c
              true hrc (by omega) (by simp [runOf])
            rw [encLoop_single _ _ _ (hstep.trans (by
              rw [encFinish_true_lit _ _ _ _ (by omega)]))]
            show flushLit (out ++ [255 - (128 - 1) + 1, c]) [c] = out ++ constTail c 128 1
            rw [flushLit, if_neg (by simp)]
            simp [constTail]
          · by_cases hj2 : j = 2
            · subst hj2
              have hrc : (if (some c : Option Nat) = some c ∧ (2 : Nat) ≠ 128
                  then 2 + 1 else 1) = 3 := if_pos ⟨rfl, by omega⟩
              have hstep := encStep_rc3 out (List.replicate (runOf 2) c) (some c) 2 c
                true hrc
              rw [encLoop_single _ _ _ (hstep.trans (by
                rw [encFinish_true_rep _ _ _ _ (by omega)]))]
              show flushLit out
                  (if 3 ≤ (List.replicate (runOf 2) c ++ [c]).length
                   then (List.replicate (runOf 2) c ++ [c]).take
                     ((List.replicate (runOf 2) c ++ [c]).length - 3)
                   else []) ++ [255 - (3 - 1) + 1, c] = out ++ constTail c 2 1
              rw [show List.replicate (runOf 2) c ++ [c] = [c, c, c] by simp [runOf, List.replicate]]
              simp [flushLit, constTail]
            · by_cases hj1' : j = 1
              · subst hj1'
                have hrc : (if (some c : Option Nat) = some c ∧ (1 : Nat) ≠ 128
                    then 1 + 1 else 1) = 2 := if_pos ⟨rfl, by omega⟩
                have hstep := encStep_run out (List.replicate (runOf 1) c) (some c) 1 c
                  true 2 hrc (by omega) (by simp [runOf]) (by omega)
                rw [encLoop_single _ _ _ (hstep.trans (by
                  rw [encFinish_true_lit _ _ _ _ (by omega)]))]
                show flushLit out (List.replicate (runOf 1) c ++ [c]) =
                  out ++ constTail c 1 1
                rw [show List.replicate (runOf 1) c ++ [c] = [c, c] by simp [runOf, List.replicate]]
                simp [flushLit, constTail]
              · -- 3 ≤ j ≤ 127: emit the final repeat packet.
                have hj3 : 3 ≤ j := by omega
                have hrc : (if (some c : Option Nat) = some c ∧ j ≠ 128
                    then j + 1 else 1) = j + 1 := if_pos ⟨rfl, hj⟩
                have hstep := encStep_run out (List.replicate (runOf j) c) (some c) j c
                  true (j + 1) hrc (by omega)
                  (by simp only [List.length_append, List.length_replicate,
                        List.length_singleton, runOf]; split <;> omega)
                  (by omega)
                rw [encLoop_single _ _ _ (hstep.trans (by
                  rw [encFinish_true_rep _ _ _ _ (by omega)]))]
                show out ++ [255 - (j + 1 - 1) + 1, c] = out ++ constTail c j 1
                rw [show constTail c j 1 = [256 - j, c] by
                  simp only [constTail, if_neg hj, if_pos (show 2 ≤ j by omega)]]
                rw [show 255 - (j + 1 - 1) + 1 = 256 - j by omega]
      | succ L' =>
          -- At least two bytes remain: a non-final step, then the tail.
          rw [List.replicate_succ, List.replicate_succ]
          by_cases hj : j = 128
          · subst hj
            have hrc : (if (some c : Option Nat) = some c ∧ (128 : Nat) ≠ 128
                then 128 + 1 else 1) = 1 := if_neg (by simp)
            have hstep := encStep_break out (List.replicate (runOf 128) c) c 128 c
              false hrc (by omega) (by simp [runOf])
            rw [encLoop_cons _ _ _ _ _ (hstep.trans (by rw [encFinish_false]))]
            rw [← List.replicate_succ]
            have := ih 1 (out ++ [255 - (128 - 1) + 1, c]) (by omega) (by omega) (by omega)
            rw [show List.replicate (runOf 1) c = [c] from rfl] at this
            rw [this, constTail_128 c (L' + 2) (by omega)]
            simp
          · by_cases hj2 : j = 2
            · subst hj2
              have hrc : (if (some c : Option Nat) = some c ∧ (2 : Nat) ≠ 128
                  then 2 + 1 else 1) = 3 := if_pos ⟨rfl, by omega⟩
              have hstep := encStep_rc3 out (List.replicate (runOf 2) c) (some c) 2 c
                false hrc
              rw [encLoop_cons _ _ _ _ _ (hstep.trans (by rw [encFinish_false]))]
              rw [← List.replicate_succ]
              have hF : (if 3 ≤ (List.replicate (runOf 2) c ++ [c]).length
                  then (List.replicate (runOf 2) c ++ [c]).take
                    ((List.replicate (runOf 2) c ++ [c]).length - 3)
                  else []) = ([] : List Nat) := by
                rw [show List.replicate (runOf 2) c ++ [c] = [c, c, c] by
                  simp [runOf, List.replicate]]
                simp
              rw [hF]
              have := ih 3 (flushLit out []) (by omega) (by omega) (by omega)
              rw [show List.replicate (runOf 3) c = [] from rfl] at this
              rw [this, constTail_step c 2 (L' + 1) (by omega) (by omega)]
              simp [flushLit]
            · -- j = 1 or 3 ≤ j ≤ 127: the repeat count climbs.
              have hrc : (if (some c : Option Nat) = some c ∧ j ≠ 128
                  then j + 1 else 1) = j + 1 := if_pos ⟨rfl, hj⟩
              have hstep := encStep_run out (List.replicate (runOf j) c) (some c) j c
                false (j + 1) hrc (by omega)
                (by simp only [List.length_append, List.length_replicate,
                      List.length_singleton, runOf]; split <;> omega)
                (by omega)
              rw [encLoop_cons _ _ _ _ _ (hstep.trans (by rw [encFinish_false]))]
              rw [← List.replicate_succ]
              have hrun : List.replicate (runOf j) c ++ [c] =
                  List.replicate (runOf (j + 1)) c := by
                rw [← List.replicate_succ']
                congr 1
                simp only [runOf]
                split <;> split <;> omega
              rw [hrun]
              have := ih (j + 1) out (by omega) (by omega) (by omega)
              rw [this, constTail_step c j (L' + 1) (by omega) (by omega)]

/-- Encoding `L ≥ 2` copies of `c` runs the loop through `constTail` from
phase 1 after the first byte. -/
theorem encoded_const (c L : Nat) (hL : 2 ≤ L) :
    encoded (List.replicate L c) = constTail c 1 (L - 1) := by
  obtain ⟨L', rfl⟩ : ∃ L', L = L' + 2 := ⟨L - 2, by omega⟩
  show encLoop ⟨[], [], none, 0⟩ (List.replicate (L' + 2) c) = _
  rw [List.replicate_succ, List.replicate_succ]
  have hstep := encStep_run [] [] none 0 c false 1 (if_neg (by simp)) (by omega)
    (by simp) (by omega)
  rw [encLoop_cons _ _ _ _ _ (hstep.trans (by rw [encFinish_false]))]
  rw [← List.replicate_succ]
  have := encLoop_const c (L' + 1) 1 [] (by omega) (by omega) (by omega)
  rw [show List.replicate (runOf 1) c = [c] from rfl] at this
  simpa using this

theorem constTail_closed (c : Nat) :
    ∀ m, 1 ≤ m →
      constTail c 1 (128 * m - 1) = (List.replicate m ([129, c] : List Nat)).flatten := by
  intro m
  induction m with
  | zero => omega
  | succ m ih =>
      intro _
      by_cases hm : m = 0
      · subst hm
        show constTail c 1 (128 * 1 - 1) = _
        rw [show 128 * 1 - 1 = 126 + 1 by omega, constTail_climb c 126 1 1 (by omega) (by omega)]
        simp [constTail]
      · have hm1 : 1 ≤ m := by omega
        rw [show 128 * (m + 1) - 1 = 127 + 128 * m by omega,
          constTail_climb c 127 1 (128 * m) (by omega) (by omega),
          show (1 + 127 : Nat) = 128 from rfl,
          constTail_128 c (128 * m) (by omega), ih hm1]
        simp [List.replicate_succ]

/-- Encoding `128 * m` copies of a byte yields `m` repeat packets
`[0x81, c]`. -/
theorem encoded_replicate_128mul (c m : Nat) (hm : 1 ≤ m) :
    encoded (List.replicate (128 * m) c) =
      (List.replicate m ([129, c] : List Nat)).flatten := by
  rw [encoded_const c _ (by omega), constTail_closed c m hm]

theorem flatten_replicate_pair_length (x : List Nat) (m : Nat) :
    ((List.replicate m x).flatten).length = m * x.length := by
  induction m with
  | zero => simp
  | succ m ih => simp [List.replicate_succ, ih]; ring

end Psd

set_option maxRecDepth 4000

section RleSmokeTests

/- The crate's own `rle` unit tests, replayed on the embedding. -/

example : Psd.encoded [0xac, 0x00] = [0x01, 0xac, 0x00] := by decide

example :
    Psd.encoded [0xAA, 0xAA, 0xAA, 0x80, 0x00, 0x2A, 0xAA, 0xAA, 0xAA, 0xAA,
      0x80, 0x00, 0x2A, 0x22, 0xAA, 0xAA, 0xAA, 0xAA, 0xAA, 0xAA, 0xAA, 0xAA,
      0xAA, 0xAA] =
    [0xFE, 0xAA, 0x02, 0x80, 0x00, 0x2A, 0xFD, 0xAA, 0x03, 0x80, 0x00, 0x2A,
      0x22, 0xF7, 0xAA] := by decide

example : Psd.encoded [0xB1, 0xB1, 0x00, 0x00] = [0x03, 0xB1, 0xB1, 0x00, 0x00] := by
  decide

example : Psd.encoded [0xFC, 0x00, 0xFC, 0xFC] = [0x03, 0xFC, 0x00, 0xFC, 0xFC] := by
  decide

example :
    Psd.encoded (List.replicate 128 0xFF ++ [0xEE]) = [0x81, 0xFF, 0x00, 0xEE] := by
  decide

example : Psd.encoded (List.replicate 129 0xFF) = [0x81, 0xFF, 0x00, 0xFF] := by
  decide

example :
    Psd.rleDecode (Psd.encoded [0xFC, 0x00, 0xFC, 0xFC]) = [0xFC, 0x00, 0xFC, 0xFC] := by
  decide

end RleSmokeTests

namespace Psd

/-! ## Claim theorems -/

/-- C2: for every finite byte sequence `S`, decoding the output of the RLE
encoder with the reference PackBits decoder (literal packet: header
`h ∈ 0x00..0x7F` followed by `h + 1` literal bytes; repeat packet: header
`h ∈ 0x81..0xFF` followed by one byte repeated `257 - h` times; header
`0x80` skipped) yields `S` again; in particular encoding the empty sequence
yields the empty sequence. -/
theorem claim_C2_rle_round_trip :
    (∀ S : List Nat, rleDecode (encoded S) = S) ∧ encoded [] = [] :=
  ⟨fun S => (encoded_packets S).decode, rfl⟩

/-- C3: every encoder output parses as a packet sequence whose headers are
either `0x00..0x7F` (a literal run of 1 to 128 following bytes, all
present) or `0x81..0xFE` (a repeat run of length `257 - h ∈ [3, 128]`);
the header `0x80` (and `0xFF`, a 2-repeat) never occurs.  In particular a
maximal input run of length 2 is emitted inside a literal packet, as on the
`encode_with_double_repeat_of_two` input. -/
theorem claim_C3_packet_grammar :
    (∀ S : List Nat, goodPackets (encoded S) = true) ∧
      encoded [0xB1, 0xB1, 0x00, 0x00] = [0x03, 0xB1, 0xB1, 0x00, 0x00] :=
  ⟨fun S => (encoded_packets S).good, by decide⟩

/-- C5: a channel whose data is at most 2 bytes long gets `RawData`
compression and an unchanged copy of its data for *every* height (including
0), with the channel state untouched; a channel with more than 2 bytes of
data and an empty cache fails — necessarily with `InvalidImage` — exactly
when `image_height = 0`, and such a failure leaves the channel (hence its
cache) unchanged. -/
theorem claim_C5_compressed_data_raw_and_error :
    ∀ (ch : ColorChannel) (h : Nat),
      (ch.data.length ≤ 2 →
        ch.compressedData h = (.ok ⟨ch.data, .rawData⟩, ch)) ∧
      (2 < ch.data.length → ch.cache = none →
        (((ch.compressedData h).1 = .error .invalidImage) ↔ h = 0) ∧
        (∀ e, (ch.compressedData h).1 = .error e → e = .invalidImage) ∧
        (h = 0 → (ch.compressedData h).2 = ch)) := by
  intro ch h
  constructor
  · intro hlen
    simp [ColorChannel.compressedData, hlen]
  · intro hlen hcache
    have hnle : ¬ ch.data.length ≤ 2 := by omega
    simp only [ColorChannel.compressedData, if_neg hnle, hcache,
      ColorChannel.rleEncodedData, ColorChannel.rleEncodedComponents]
    by_cases h0 : h = 0
    · subst h0
      simp
    · simp [h0]

/-- Witness for C5 at the concrete channels from the crate's own tests. -/
theorem claim_C5_witness :
    ((⟨2, ColorChannelType.red, [0xac, 0x00], none⟩ : ColorChannel).compressedData 7
      = (.ok ⟨[0xac, 0x00], .rawData⟩,
          ⟨2, ColorChannelType.red, [0xac, 0x00], none⟩)) ∧
    ((((⟨3, ColorChannelType.red, [1, 2, 3], none⟩ : ColorChannel).compressedData 0).1
      = .error .invalidImage) ↔ (0 : Nat) = 0) :=
  ⟨(claim_C5_compressed_data_raw_and_error ⟨2, .red, [0xac, 0x00], none⟩ 7).1
      (by decide),
    ((claim_C5_compressed_data_raw_and_error ⟨3, .red, [1, 2, 3], none⟩ 0).2
      (by decide) rfl).1⟩

end Psd

namespace Psd

/-! ### Line-length table helpers (C4, C10) -/

theorem sum_map_const {α : Type} (vs : List α) (c : Nat) :
    (vs.map (fun _ => c)).sum = vs.length * c := by
  induction vs with
  | nil => simp
  | cons v vs ih => simp [ih, Nat.succ_mul, Nat.add_comm]


/-- Reading the `i`-th big-endian `u16` of a flattened table of `u16be`
encodings recovers the `i`-th value modulo `2 ^ 16`. -/
theorem readU16_flatten (vs : List Nat) :
    ∀ (i : Nat), i < vs.length →
      readU16 (vs.map u16be).flatten i = vs.getD i 0 % 65536 := by
  induction vs with
  | nil => intro i h; simp at h
  | cons v vs ih =>
      intro i h
      cases i with
      | zero =>
          show readU16 ((u16be v :: (vs.map u16be)).flatten) 0 = v % 65536
          rw [List.flatten_cons]
          show 256 * ((u16be v ++ (vs.map u16be).flatten).getD 0 0) +
            (u16be v ++ (vs.map u16be).flatten).getD 1 0 = v % 65536
          simp only [u16be, List.cons_append, List.nil_append,
            List.getD_cons_zero, List.getD_cons_succ]
          omega
      | succ i =>
          have hi : i < vs.length := by simpa using h
          have hrec := ih i hi
          show readU16 ((u16be v :: (vs.map u16be)).flatten) (i + 1) =
            (v :: vs).getD (i + 1) 0 % 65536
          rw [List.flatten_cons]
          show 256 * ((u16be v ++ (vs.map u16be).flatten).getD (2 * (i + 1)) 0) +
            (u16be v ++ (vs.map u16be).flatten).getD (2 * (i + 1) + 1) 0 =
            (v :: vs).getD (i + 1) 0 % 65536
          simp only [u16be, List.cons_append, List.nil_append,
            show 2 * (i + 1) = (2 * i + 1) + 1 by omega,
            show (2 * i + 1) + 1 + 1 = (2 * i + 1 + 1) + 1 by omega,
            List.getD_cons_succ]
          simpa [readU16, show 2 * i + 1 = 2 * i + 1 from rfl] using hrec

/-- Consecutive `bytes_per_row`-slices flatten to a prefix of the data. -/
theorem flatten_slices (l : List Nat) (bpr : Nat) :
    ∀ n : Nat, ((List.range n).map (fun y => (l.drop (y * bpr)).take bpr)).flatten
      = l.take (n * bpr) := by
  intro n
  induction n with
  | zero => simp
  | succ n ih =>
      rw [List.range_succ, List.map_append, List.flatten_append, ih]
      simp only [List.map_cons, List.map_nil, List.flatten_cons, List.flatten_nil,
        List.append_nil]
      rw [show (n + 1) * bpr = n * bpr + bpr by ring, List.take_add]

/-- `rle_encoded_components` in closed form, for a nonzero height. -/
theorem rleEncodedComponents_ok (ch : ColorChannel) (n : Nat) (hn : n ≠ 0) :
    ch.rleEncodedComponents n = .ok
      ⟨((List.range n).map (fun y =>
          u16be (encoded ((ch.data.drop (y * (ch.data.length % 4294967296 / n))).take
            (ch.data.length % 4294967296 / n))).length)).flatten,
       ((List.range n).map (fun y =>
          encoded ((ch.data.drop (y * (ch.data.length % 4294967296 / n))).take
            (ch.data.length % 4294967296 / n)))).flatten⟩ := by
  simp only [ColorChannel.rleEncodedComponents, if_neg hn, List.map_map]
  rfl

end Psd

namespace Psd

/-- `rle_encoded_components` of a constant channel of `128 * m` bytes at
height 1: one scanline of `m` repeat packets, with the line length stored
as a `u16`. -/
theorem constantChannelComponents (c m : Nat) (hm : 1 ≤ m)
    (hlt : 128 * m < 4294967296) :
    (⟨128 * m, ColorChannelType.red, List.replicate (128 * m) c, none⟩ :
        ColorChannel).rleEncodedComponents 1 =
      .ok ⟨u16be ((List.replicate m ([129, c] : List Nat)).flatten).length,
           (List.replicate m ([129, c] : List Nat)).flatten⟩ := by
  rw [rleEncodedComponents_ok _ 1 (by omega)]
  have hr1 : List.range 1 = [0] := rfl
  have hbpr : (List.replicate (128 * m) c).length % 4294967296 / 1 = 128 * m := by
    rw [List.length_replicate, Nat.mod_eq_of_lt hlt, Nat.div_one]
  have htake : (List.replicate (128 * m) c).take (128 * m) =
      List.replicate (128 * m) c := by
    simp [List.take_replicate]
  have henc := encoded_replicate_128mul c m hm
  simp only [hr1, hbpr, List.map_cons, List.map_nil, Nat.zero_mul, List.drop_zero,
    htake, henc, List.flatten_cons, List.flatten_nil, List.append_nil]

/-- C4 counterexample: for a constant channel of `2 ^ 22 = 128 * 32768`
bytes at height 1 the single scanline RLE-encodes to exactly `2 ^ 16`
bytes, so the stored big-endian `u16` line length reads back as
`65536 % 2 ^ 16 = 0` — not the encoded length — and the table's values (0)
do not sum to the encoded data length. -/
theorem claim_C4_counterexample :
    (⟨2 ^ 22, ColorChannelType.red, List.replicate (2 ^ 22) 0, none⟩ :
        ColorChannel).rleEncodedComponents 1 =
      .ok ⟨[0, 0], (List.replicate 32768 ([129, 0] : List Nat)).flatten⟩ ∧
    readU16 [0, 0] 0 = 0 ∧
    (encoded ((List.replicate (2 ^ 22) 0).take (2 ^ 22 / 1))).length = 65536 ∧
    (0 : Nat) ≠ 65536 := by
  have hlen2 : ((List.replicate 32768 ([129, 0] : List Nat)).flatten).length = 65536 := by
    rw [flatten_replicate_pair_length]
    norm_num
  refine ⟨?_, by decide, ?_, by omega⟩
  · rw [show (2 ^ 22 : Nat) = 128 * 32768 by norm_num,
      constantChannelComponents 0 32768 (by omega) (by norm_num), hlen2,
      show u16be 65536 = [0, 0] by norm_num [u16be]]
  · have htake : (List.replicate (128 * 32768) (0 : Nat)).take (128 * 32768) =
        List.replicate (128 * 32768) 0 := by
      have h := List.take_length (List.replicate (128 * 32768) (0 : Nat))
      rwa [List.length_replicate] at h
    rw [show (2 ^ 22 : Nat) = 128 * 32768 by norm_num, Nat.div_one, htake,
      encoded_replicate_128mul 0 32768 (by omega)]
    exact hlen2

/-- C4 (amended): for a channel whose `data.len()` is below `2 ^ 32` (the
length is cast to `u32`) and whose every scanline RLE-encodes to fewer
than `2 ^ 16` bytes (each length is stored as a `u16`),
`rle_encoded_components` succeeds for every `image_height = n ≥ 1`,
returning a `2 * n`-byte line-length table whose `i`-th big-endian `u16`
value is the encoded length of the `i`-th scanline (rows of
`data.len() / n` bytes, encoded independently); the data is the
concatenation of the per-row encodings, and the `n` values sum to its
length.  Without the boundedness side conditions the stored values are the
encoded lengths reduced modulo `2 ^ 16` (see the counterexample). -/
theorem claim_C4_line_length_table (ch : ColorChannel) (n : Nat)
    (hn : 1 ≤ n) (hlen : ch.data.length < 4294967296)
    (hrows : ∀ y, y < n →
      (encoded ((ch.data.drop (y * (ch.data.length / n))).take
        (ch.data.length / n))).length < 65536) :
    ∃ r, ch.rleEncodedComponents n = .ok r ∧
      r.line_lengths.length = 2 * n ∧
      (∀ i, i < n → readU16 r.line_lengths i =
        (encoded ((ch.data.drop (i * (ch.data.length / n))).take
          (ch.data.length / n))).length) ∧
      r.data = ((List.range n).map (fun y =>
        encoded ((ch.data.drop (y * (ch.data.length / n))).take
          (ch.data.length / n)))).flatten ∧
      ((List.range n).map (fun i => readU16 r.line_lengths i)).sum =
        r.data.length := by
  have hmod : ch.data.length % 4294967296 = ch.data.length := Nat.mod_eq_of_lt hlen
  have hcomp := rleEncodedComponents_ok ch n (by omega)
  rw [hmod] at hcomp
  have htable : (((List.range n).map (fun y =>
      (encoded ((ch.data.drop (y * (ch.data.length / n))).take
        (ch.data.length / n))).length)).map u16be) =
      ((List.range n).map (fun y =>
        u16be (encoded ((ch.data.drop (y * (ch.data.length / n))).take
          (ch.data.length / n))).length)) := by
    rw [List.map_map]
    rfl
  have hvslen : ((List.range n).map (fun y =>
      (encoded ((ch.data.drop (y * (ch.data.length / n))).take
        (ch.data.length / n))).length)).length = n := by
    simp
  have hvals : ∀ i, i < n →
      readU16 (((List.range n).map (fun y =>
        u16be (encoded ((ch.data.drop (y * (ch.data.length / n))).take
          (ch.data.length / n))).length)).flatten) i =
      (encoded ((ch.data.drop (i * (ch.data.length / n))).take
        (ch.data.length / n))).length := by
    intro i hi
    rw [← htable, readU16_flatten _ i (by rw [hvslen]; exact hi)]
    rw [List.getD_eq_getElem _ 0 (by rw [hvslen]; exact hi)]
    simp only [List.getElem_map, List.getElem_range]
    exact Nat.mod_eq_of_lt (hrows i hi)
  refine ⟨_, hcomp, ?_, hvals, rfl, ?_⟩
  · -- `2 * n` bytes of line lengths
    rw [← htable, List.length_flatten, List.map_map, List.map_map]
    show ((List.range n).map (fun _ => (2 : Nat))).sum = 2 * n
    rw [sum_map_const, List.length_range]
    omega
  · -- the values sum to the data length
    have hmapeq : ((List.range n).map (fun i =>
        readU16 (((List.range n).map (fun y =>
          u16be (encoded ((ch.data.drop (y * (ch.data.length / n))).take
            (ch.data.length / n))).length)).flatten) i)) =
        ((List.range n).map (fun i =>
          (encoded ((ch.data.drop (i * (ch.data.length / n))).take
            (ch.data.length / n))).length)) := by
      apply List.map_congr_left
      intro i hi
      exact hvals i (List.mem_range.mp hi)
    rw [hmapeq, List.length_flatten, List.map_map]
    rfl

/-- Witness for C4 at the crate's own `encoded_data_2x2` test channel. -/
theorem claim_C4_witness :
    ((⟨4, ColorChannelType.red, [0xfb, 0xe5, 0x42, 0x20], none⟩ :
        ColorChannel).rleEncodedComponents 2 =
      .ok ⟨[0x00, 0x03, 0x00, 0x03], [0x01, 0xfb, 0xe5, 0x01, 0x42, 0x20]⟩) ∧
    readU16 [0x00, 0x03, 0x00, 0x03] 1 = (encoded [0x42, 0x20]).length := by
  obtain ⟨r, h1, _, h3, _, _⟩ :=
    claim_C4_line_length_table ⟨4, .red, [0xfb, 0xe5, 0x42, 0x20], none⟩ 2
      (by decide) (by decide) (by decide)
  have hr : r = ⟨[0x00, 0x03, 0x00, 0x03], [0x01, 0xfb, 0xe5, 0x01, 0x42, 0x20]⟩ := by
    have hcomp : (⟨4, ColorChannelType.red, [0xfb, 0xe5, 0x42, 0x20], none⟩ :
        ColorChannel).rleEncodedComponents 2 =
        .ok ⟨[0x00, 0x03, 0x00, 0x03], [0x01, 0xfb, 0xe5, 0x01, 0x42, 0x20]⟩ := by
      rfl
    rw [h1] at hcomp
    exact Except.ok.inj hcomp
  subst hr
  refine ⟨h1, ?_⟩
  have hv := h3 1 (by decide)
  rw [hv]
  decide

end Psd

namespace Psd

/-- `rle_encoded_components` at height 1 of a channel whose length reduces
to 0 under the `usize as u32` cast: the single row is empty, so nothing is
consumed or encoded. -/
theorem rleEncodedComponents_wrapzero (ch : ColorChannel)
    (h : ch.data.length % 4294967296 = 0) :
    ch.rleEncodedComponents 1 = .ok ⟨[0, 0], []⟩ := by
  rw [rleEncodedComponents_ok ch 1 (by omega)]
  have hr1 : List.range 1 = [0] := rfl
  simp only [hr1, h, Nat.zero_div, List.map_cons, List.map_nil, Nat.zero_mul,
    List.drop_zero, List.take_zero, List.flatten_cons, List.flatten_nil,
    List.append_nil]
  rfl

/-- C10 counterexample: for a channel of exactly `2 ^ 32` bytes at height
1, `bytes_per_row` is computed from `data.len() as u32 = 0`, so the code
consumes 0 bytes — not the `1 * floor(2 ^ 32 / 1) = 2 ^ 32` bytes the claim
asserts; the whole plane is silently skipped. -/
theorem claim_C10_counterexample :
    (⟨2 ^ 32, ColorChannelType.red, List.replicate (2 ^ 32) 0, none⟩ :
        ColorChannel).rleEncodedComponents 1 = .ok ⟨[0, 0], []⟩ ∧
    (List.replicate (2 ^ 32) (0 : Nat)).length = 2 ^ 32 ∧
    1 * ((2 : Nat) ^ 32 / 1) = 2 ^ 32 ∧ (2 : Nat) ^ 32 ≠ 0 := by
  refine ⟨?_, List.length_replicate _ _, by norm_num, by positivity⟩
  apply rleEncodedComponents_wrapzero
  rw [show ((⟨2 ^ 32, ColorChannelType.red, List.replicate (2 ^ 32) 0, none⟩ :
      ColorChannel)).data = List.replicate (2 ^ 32) 0 from rfl,
    List.length_replicate]
  norm_num

/-- C10 (amended): for a channel with `data.len() < 2 ^ 32` (the length is
cast to `u32` before the division) and any `image_height = n ≥ 1`, every
row slice `[y*bpr .. y*bpr + bpr]` with `bpr = data.len() / n` stays within
the data, `rle_encoded_components` succeeds, the raw bytes fed to the
encoder are exactly the first `n * bpr` bytes of the plane (the trailing
`data.len() mod n` remainder bytes are silently excluded), and the
returned data is the concatenation of the per-row encodings. -/
theorem claim_C10_row_slicing (ch : ColorChannel) (n : Nat)
    (hn : 1 ≤ n) (hlen : ch.data.length < 4294967296) :
    (∀ y, y < n → y * (ch.data.length / n) + ch.data.length / n
      ≤ ch.data.length) ∧
    ∃ r, ch.rleEncodedComponents n = .ok r ∧
      ((List.range n).map (fun y =>
        (ch.data.drop (y * (ch.data.length / n))).take (ch.data.length / n))).flatten
        = ch.data.take (n * (ch.data.length / n)) ∧
      r.data = ((List.range n).map (fun y =>
        encoded ((ch.data.drop (y * (ch.data.length / n))).take
          (ch.data.length / n)))).flatten := by
  have hmod : ch.data.length % 4294967296 = ch.data.length := Nat.mod_eq_of_lt hlen
  constructor
  · intro y hy
    have h1 : ch.data.length / n * n ≤ ch.data.length := Nat.div_mul_le_self _ _
    have h2 : (y + 1) * (ch.data.length / n) ≤ n * (ch.data.length / n) :=
      Nat.mul_le_mul_right _ (by omega)
    have h3 : y * (ch.data.length / n) + ch.data.length / n
        = (y + 1) * (ch.data.length / n) := by ring
    rw [h3]
    exact h2.trans (by rw [Nat.mul_comm]; exact h1)
  · have hcomp := rleEncodedComponents_ok ch n (by omega)
    rw [hmod] at hcomp
    exact ⟨_, hcomp, flatten_slices ch.data (ch.data.length / n) n, rfl⟩

/-- Witness for C10 at a 5-byte channel split into two 2-byte rows (the
fifth byte is excluded). -/
theorem claim_C10_witness :
    ((⟨5, ColorChannelType.red, [1, 2, 3, 4, 5], none⟩ :
        ColorChannel).rleEncodedComponents 2 =
      .ok ⟨[0, 3, 0, 3], [1, 1, 2, 1, 3, 4]⟩) ∧
    1 * (([1, 2, 3, 4, 5] : List Nat).length / 2) +
      ([1, 2, 3, 4, 5] : List Nat).length / 2
      ≤ ([1, 2, 3, 4, 5] : List Nat).length := by
  obtain ⟨hb, r, hok, hfl, hdata⟩ :=
    claim_C10_row_slicing ⟨5, .red, [1, 2, 3, 4, 5], none⟩ 2 (by decide) (by decide)
  refine ⟨?_, hb 1 (by decide)⟩
  have hcomp : (⟨5, ColorChannelType.red, [1, 2, 3, 4, 5], none⟩ :
      ColorChannel).rleEncodedComponents 2 =
      .ok ⟨[0, 3, 0, 3], [1, 1, 2, 1, 3, 4]⟩ := by rfl
  exact hcomp

end Psd

namespace Psd

/-! ### File-layout helpers (C1, C7, C8, C9) -/

theorem u16be_length (n : Nat) : (u16be n).length = 2 := rfl

theorem u32be_length (n : Nat) : (u32be n).length = 4 := rfl

theorem i16be_length (z : Int) : (i16be z).length = 2 := rfl

theorem i32be_length (z : Int) : (i32be z).length = 4 := rfl

theorem headerBytes_length (d : Document) : (headerBytes d).length = 30 := by
  simp [headerBytes, FILE_SIGNATURE, i16be, u16be, u32be]

theorem imageResourcesBytes_length (d : Document) :
    (imageResourcesBytes d).length = 54 + 2 * d.numberOfLayers := by
  simp [imageResourcesBytes, RESOURCE_SIGNATURE, resolutionInformationData,
    i16be, u16be, u32be, flatten_replicate_pair_length]
  omega

/-- `n as i16` is the identity below `i16::MAX`. -/
theorem i16OfNat_small (n : Nat) (h : n ≤ 32767) : i16OfNat n = (n : Int) := by
  unfold i16OfNat
  rw [Nat.mod_eq_of_lt (by omega), if_pos (by omega)]

/-- Reading back a small signed 16-bit value from its big-endian bytes. -/
theorem readI16_i16be (z : Int) (t : List Nat) (h1 : -32768 ≤ z)
    (h2 : z < 32768) : readI16 (i16be z ++ t) = z := by
  simp only [readI16, i16be, u16be, List.cons_append, List.nil_append,
    List.getD_cons_zero, List.getD_cons_succ]
  have hmod : z.emod 65536 = z % 65536 := rfl
  rw [hmod]
  split <;> omega

/-- Decomposes a successful `file_data` run into its sections: the header,
the length-prefixed image resources, the length-prefixed layer-and-mask
data built from the record and image passes, and the optional preview
tail. -/
theorem fileData_parts (d : Document) (bs : List Nat) (h : d.fileData = some bs) :
    ∃ records layers' images tail,
      recordPass d.extent d.allLayers = some (records, layers') ∧
      imagePass layers' = some images ∧
      bs = headerBytes d ++ u32be (imageResourcesBytes d).length
        ++ imageResourcesBytes d
        ++ u32be (layerAndMaskData d records images).length
        ++ layerAndMaskData d records images ++ tail := by
  unfold Document.fileData at h
  cases hrp : recordPass d.extent d.allLayers with
  | none => rw [hrp] at h; simp at h
  | some p =>
    obtain ⟨records, layers'⟩ := p
    rw [hrp] at h
    cases hip : imagePass layers' with
    | none => simp [hip] at h
    | some images =>
      cases hpv : d.preview_image with
      | none =>
        rw [hpv] at h
        simp [hip] at h
        refine ⟨records, layers', images, [], rfl, hip, ?_⟩
        rw [← h]
        simp
      | some img =>
        rw [hpv] at h
        cases hpd : psdData img .rle with
        | none => simp [hip, hpd] at h
        | some pv =>
          simp [hip, hpd] at h
          refine ⟨records, layers', images, pv, rfl, hip, ?_⟩
          rw [← h]
          simp

end Psd

namespace Psd

/-- Positions the layer-info block inside a decomposed `file_data` stream:
the negated layer count starts at byte `96 + 2 * n` and the layer records
at byte `98 + 2 * n`, where `n` is the flattened layer count. -/
theorem fileData_layerInfo_drops (d : Document) (bs records images tail : List Nat)
    (hbs : bs = headerBytes d ++ u32be (imageResourcesBytes d).length
      ++ imageResourcesBytes d
      ++ u32be (layerAndMaskData d records images).length
      ++ layerAndMaskData d records images ++ tail) :
    ∃ rest,
      bs.drop (96 + 2 * d.numberOfLayers)
        = i16be (i16OfNat d.numberOfLayers * -1) ++ records ++ rest ∧
      bs.drop (98 + 2 * d.numberOfLayers) = records ++ rest := by
  obtain ⟨padding, hp⟩ :
      ∃ p, pad (i16be (i16OfNat d.numberOfLayers * -1) ++ records ++ images) 2
        = (i16be (i16OfNat d.numberOfLayers * -1) ++ records ++ images) ++ p :=
    ⟨_, rfl⟩
  have hpad : layerInfoData d records images
      = i16be (i16OfNat d.numberOfLayers * -1) ++ records ++ images ++ padding := by
    unfold layerInfoData
    rw [hp]
  refine ⟨images ++ padding ++ u32be 0 ++ tail, ?_, ?_⟩
  · have hre : bs = (headerBytes d ++ u32be (imageResourcesBytes d).length
        ++ imageResourcesBytes d
        ++ u32be (layerAndMaskData d records images).length
        ++ u32be (layerInfoData d records images).length)
        ++ (i16be (i16OfNat d.numberOfLayers * -1) ++ records ++ images ++ padding
          ++ u32be 0 ++ tail) := by
      rw [hbs]
      simp only [layerAndMaskData, hpad, List.append_assoc]
    rw [hre, List.drop_left']
    · simp [List.append_assoc]
    · simp [headerBytes_length, imageResourcesBytes_length, u16be_length,
        u32be_length]
      omega
  · have hre : bs = (headerBytes d ++ u32be (imageResourcesBytes d).length
        ++ imageResourcesBytes d
        ++ u32be (layerAndMaskData d records images).length
        ++ u32be (layerInfoData d records images).length
        ++ i16be (i16OfNat d.numberOfLayers * -1))
        ++ (records ++ images ++ padding ++ u32be 0 ++ tail) := by
      rw [hbs]
      simp only [layerAndMaskData, hpad, List.append_assoc]
    rw [hre, List.drop_left']
    · simp [List.append_assoc]
    · simp [headerBytes_length, imageResourcesBytes_length, u16be_length,
        u32be_length, i16be_length]
      omega

end Psd

namespace Psd

/-- C8: every document with size 32×16 and 4 channels starts its
`file_data` output with the 30 header bytes
`38 42 50 53 00 01 00 00 00 00 00 00 00 04 00 00 00 10 00 00 00 20 00 08
00 03 00 00 00 00` — magic, version 1, six zero bytes, channel count,
height, width, depth 8, colour mode 3 (RGB) and a zero
colour-mode-data length — whatever its `bits_per_channel` and
`color_mode` fields hold. -/
theorem claim_C8_header_bytes (d : Document) (bs : List Nat)
    (h : d.fileData = some bs) (hs : d.size = ⟨32, 16⟩)
    (hc : d.number_of_channels = 4) :
    bs.take 30 = [0x38, 0x42, 0x50, 0x53, 0x00, 0x01, 0x00, 0x00, 0x00, 0x00,
      0x00, 0x00, 0x00, 0x04, 0x00, 0x00, 0x00, 0x10, 0x00, 0x00, 0x00, 0x20,
      0x00, 0x08, 0x00, 0x03, 0x00, 0x00, 0x00, 0x00] := by
  obtain ⟨records, layers', images, tail, hrp, hip, hbs⟩ := fileData_parts d bs h
  have hre : bs = headerBytes d ++ (u32be (imageResourcesBytes d).length
      ++ (imageResourcesBytes d
      ++ (u32be (layerAndMaskData d records images).length
      ++ (layerAndMaskData d records images ++ tail)))) := by
    rw [hbs]
    simp [List.append_assoc]
  rw [hre, List.take_left' (headerBytes_length d)]
  simp only [headerBytes, hs, hc]
  rfl

/-- Witness for C8 at a concrete 32×16 document whose `bits_per_channel`
is 16 and whose `color_mode` is CMYK. -/
theorem claim_C8_witness :
    ((Document.mk 4 ⟨32, 16⟩ 16 .cmyk none []).fileData.getD []).take 30
      = [0x38, 0x42, 0x50, 0x53, 0x00, 0x01, 0x00, 0x00, 0x00, 0x00,
         0x00, 0x00, 0x00, 0x04, 0x00, 0x00, 0x00, 0x10, 0x00, 0x00, 0x00, 0x20,
         0x00, 0x08, 0x00, 0x03, 0x00, 0x00, 0x00, 0x00] :=
  claim_C8_header_bytes (Document.mk 4 ⟨32, 16⟩ 16 .cmyk none [])
    ((Document.mk 4 ⟨32, 16⟩ 16 .cmyk none []).fileData.getD []) rfl rfl rfl

end Psd

namespace Psd

/-- C7: for every document whose flattened layer count `N` — one per image
layer and two per group, recursively (`Layer.numberOfLayersInc` adds 1 for
an image and `1 + count children + 1` for a group) — respects the spec's
`N ≤ i16::MAX` data-model invariant, the first big-endian `i16` of the
layer-info section written by `file_data` (at offset `96 + 2 * N`, after
the header, the image resources and the two section length fields) equals
`-N`. -/
theorem claim_C7_layer_count (d : Document) (bs : List Nat)
    (h : d.fileData = some bs) (hn : d.numberOfLayers ≤ 32767) :
    readI16 (bs.drop (96 + 2 * d.numberOfLayers))
      = -(d.numberOfLayers : Int) := by
  obtain ⟨records, layers', images, tail, hrp, hip, hbs⟩ := fileData_parts d bs h
  obtain ⟨rest, h96, h98⟩ := fileData_layerInfo_drops d bs records images tail hbs
  rw [i16OfNat_small _ hn] at h96
  rw [h96, List.append_assoc, readI16_i16be]
  · ring
  · have : (d.numberOfLayers : Int) ≤ 32767 := by exact_mod_cast hn
    omega
  · have : (0 : Int) ≤ (d.numberOfLayers : Int) := Int.natCast_nonneg _
    omega

/-- Witness for C7 at a concrete 2×1 document holding one image layer and
one group with an image child (of nonzero bounds, so that the unpromoted
copy of the child inside the group survives the image pass) and a nested
empty group (`N = 1 + (1 + (1 + 2) + 1) = 6`). -/
theorem claim_C7_witness :
    readI16 (((Document.mk 4 ⟨2, 1⟩ 8 .rgb none
        [Layer.new Rect.zero,
         Layer.mkGroup [Layer.new ⟨⟨0, 0⟩, ⟨1, 1⟩⟩, Layer.mkGroup [] false] true]).fileData.getD
          []).drop
        (96 + 2 * (Document.mk 4 ⟨2, 1⟩ 8 .rgb none
          [Layer.new Rect.zero,
           Layer.mkGroup [Layer.new ⟨⟨0, 0⟩, ⟨1, 1⟩⟩, Layer.mkGroup [] false] true]).numberOfLayers))
      = -((Document.mk 4 ⟨2, 1⟩ 8 .rgb none
          [Layer.new Rect.zero,
           Layer.mkGroup [Layer.new ⟨⟨0, 0⟩, ⟨1, 1⟩⟩, Layer.mkGroup [] false] true]).numberOfLayers : Int) :=
  claim_C7_layer_count
    (Document.mk 4 ⟨2, 1⟩ 8 .rgb none
      [Layer.new Rect.zero,
       Layer.mkGroup [Layer.new ⟨⟨0, 0⟩, ⟨1, 1⟩⟩, Layer.mkGroup [] false] true])
    ((Document.mk 4 ⟨2, 1⟩ 8 .rgb none
      [Layer.new Rect.zero,
       Layer.mkGroup [Layer.new ⟨⟨0, 0⟩, ⟨1, 1⟩⟩, Layer.mkGroup [] false] true]).fileData.getD [])
    (by rfl) (by decide)

end Psd

namespace Psd

/-- Counterexample to C1: on a document holding one empty group,
`file_data`'s record pass (plain `layer_record_data` over the one-level
`all_layers()` flattening) does not produce the flattened depth-first
post-order records of `record_data` (group marker, children, group
opener): the marker record is missing entirely. -/
theorem claim_C1_counterexample :
    Option.map (fun p => p.1)
        (recordPass (Document.mk 4 ⟨2, 1⟩ 8 .rgb none
            [Layer.mkGroup [] false]).extent
          (Document.mk 4 ⟨2, 1⟩ 8 .rgb none [Layer.mkGroup [] false]).allLayers)
      ≠ (Document.mk 4 ⟨2, 1⟩ 8 .rgb none
          [Layer.mkGroup [] false]).specPostOrderRecords := by
  decide

/-- C1 (amended): the layer-records portion of `file_data` (starting at
byte `98 + 2 * N` of the output) is the concatenation, over the *one-level*
flattening `all_layers()` (each group followed by its direct children
only), of each flattened layer's plain `layer_record_data` with zero
bounds promoted to the document extent — `record_data`'s group-marker /
post-order structure is never invoked; the per-layer image-data blocks
(`imagePass`, i.e. `encoded_image` of each layer as updated by the record
pass, in that same one-level flattened order) follow immediately after
the records. -/
theorem claim_C1_records_one_level (d : Document) (bs : List Nat)
    (h : d.fileData = some bs) :
    ∃ records layers' images,
      recordPass d.extent d.allLayers = some (records, layers') ∧
      imagePass layers' = some images ∧
      (bs.drop (98 + 2 * d.numberOfLayers)).take records.length = records ∧
      ((bs.drop (98 + 2 * d.numberOfLayers)).drop records.length).take
        images.length = images := by
  obtain ⟨records, layers', images, tail, hrp, hip, hbs⟩ := fileData_parts d bs h
  obtain ⟨padding, hp⟩ :
      ∃ p, pad (i16be (i16OfNat d.numberOfLayers * -1) ++ records ++ images) 2
        = (i16be (i16OfNat d.numberOfLayers * -1) ++ records ++ images) ++ p :=
    ⟨_, rfl⟩
  have hpad : layerInfoData d records images
      = i16be (i16OfNat d.numberOfLayers * -1) ++ records ++ images ++ padding := by
    unfold layerInfoData
    rw [hp]
  have hre : bs = (headerBytes d ++ u32be (imageResourcesBytes d).length
      ++ imageResourcesBytes d
      ++ u32be (layerAndMaskData d records images).length
      ++ u32be (layerInfoData d records images).length
      ++ i16be (i16OfNat d.numberOfLayers * -1))
      ++ (records ++ (images ++ (padding ++ u32be 0 ++ tail))) := by
    rw [hbs]
    simp only [layerAndMaskData, hpad, List.append_assoc]
  have hdrop : bs.drop (98 + 2 * d.numberOfLayers)
      = records ++ (images ++ (padding ++ u32be 0 ++ tail)) := by
    rw [hre, List.drop_left']
    simp [headerBytes_length, imageResourcesBytes_length, u32be_length,
      i16be_length]
    omega
  refine ⟨records, layers', images, hrp, hip, ?_, ?_⟩
  · rw [hdrop, List.take_left]
  · rw [hdrop, List.drop_left, List.take_left]

/-- Witness for the amended C1 at the one-empty-group document of the
counterexample. -/
theorem claim_C1_witness :
    ∃ records layers' images,
      recordPass (Document.mk 4 ⟨2, 1⟩ 8 .rgb none
          [Layer.mkGroup [] false]).extent
        (Document.mk 4 ⟨2, 1⟩ 8 .rgb none [Layer.mkGroup [] false]).allLayers
        = some (records, layers') ∧
      imagePass layers' = some images ∧
      (((Document.mk 4 ⟨2, 1⟩ 8 .rgb none
            [Layer.mkGroup [] false]).fileData.getD []).drop
          (98 + 2 * (Document.mk 4 ⟨2, 1⟩ 8 .rgb none
            [Layer.mkGroup [] false]).numberOfLayers)).take records.length
        = records ∧
      ((((Document.mk 4 ⟨2, 1⟩ 8 .rgb none
            [Layer.mkGroup [] false]).fileData.getD []).drop
          (98 + 2 * (Document.mk 4 ⟨2, 1⟩ 8 .rgb none
            [Layer.mkGroup [] false]).numberOfLayers)).drop
        records.length).take images.length = images :=
  claim_C1_records_one_level
    (Document.mk 4 ⟨2, 1⟩ 8 .rgb none [Layer.mkGroup [] false])
    ((Document.mk 4 ⟨2, 1⟩ 8 .rgb none [Layer.mkGroup [] false]).fileData.getD [])
    (by rfl)

end Psd

namespace Psd

/-- Unfolds one step of the record pass: the promoted head layer's record
followed by the records of the remaining layers. -/
theorem recordPass_cons (e : Rect) (l : Layer) (L : List Layer)
    (r : List Nat) (ls : List Layer)
    (h : recordPass e (l :: L) = some (r, ls)) :
    ∃ d0 l0 ds Ls,
      (promoteZeroBounds e l).layerRecordData = some (d0, l0) ∧
      recordPass e L = some (ds, Ls) ∧ r = d0 ++ ds ∧ ls = l0 :: Ls := by
  unfold recordPass at h
  cases hld : (promoteZeroBounds e l).layerRecordData with
  | none => rw [hld] at h; simp at h
  | some p =>
    obtain ⟨d0, l0⟩ := p
    rw [hld] at h
    cases hrp : recordPass e L with
    | none => simp [hrp] at h
    | some q =>
      obtain ⟨ds, Ls⟩ := q
      simp [hrp] at h
      exact ⟨d0, l0, ds, Ls, rfl, rfl, h.1.symm, h.2.symm⟩

/-- `layer_record_data` on a group layer in closed form: a group never
fails (`update_channel_data` returns immediately), and its record starts
with the 16 bounds bytes. -/
theorem group_layerRecordData_eq (b : LayerBase) (cs : List Layer) :
    (Layer.group b cs).layerRecordData
      = some ((i32be b.bounds.minY ++ i32be b.bounds.minX
            ++ i32be b.bounds.maxY ++ i32be b.bounds.maxX)
          ++ (i16be b.number_of_channels
            ++ (recordChannels (u32OfInt b.bounds.height) b.channels).1
            ++ RESOURCE_SIGNATURE ++ b.blend_mode.asStr ++ u8byte b.opacity
            ++ [0x00] ++ [if b.is_hidden then 0x02 else 0x00] ++ [0x00]
            ++ u32be (u32be 0 ++ u32be 0 ++ pad (pascalData b.name) 4
                ++ unicodeData b.name
                ++ b.additional_layer_information.getD []).length
            ++ (u32be 0 ++ u32be 0 ++ pad (pascalData b.name) 4
                ++ unicodeData b.name
                ++ b.additional_layer_information.getD [])),
        Layer.group { b with channels :=
          (recordChannels (u32OfInt b.bounds.height) b.channels).2 } cs) := by
  by_cases hch : b.channels = [] <;>
    simp [Layer.layerRecordData, Layer.base, Layer.updateChannelData,
      Layer.withBase, hch, recordChannels, List.append_assoc]

end Psd

namespace Psd

/-- C9: the record pass promotes zero bounds for *every* flattened layer,
groups included: when the first top-level layer is a group (whose bounds
are the zero rectangle, as `Layer::group` constructs them), the 16 bounds
bytes of its layer record — the first record in the layer-info block, at
byte `98 + 2 * N` of the `file_data` output — hold the full document
extent `(top 0, left 0, bottom height, right width)` rather than zeros. -/
theorem claim_C9_group_bounds_promoted (d : Document) (b : LayerBase)
    (cs rest : List Layer) (bs : List Nat)
    (hl : d.layers = Layer.group b cs :: rest) (hb : b.bounds = Rect.zero)
    (h : d.fileData = some bs) :
    (bs.drop (98 + 2 * d.numberOfLayers)).take 16
      = i32be 0 ++ i32be 0 ++ i32be (d.size.height : Int)
        ++ i32be (d.size.width : Int) := by
  obtain ⟨records, layers', images, tail, hrp, hip, hbs⟩ := fileData_parts d bs h
  obtain ⟨rest', h96, h98⟩ := fileData_layerInfo_drops d bs records images tail hbs
  have hall : d.allLayers = Layer.group b cs :: (cs ++ rest.flatMap (fun l =>
      match l with
      | .group _ cs2 => l :: cs2
      | .image _ => [l])) := by
    simp [Document.allLayers, hl]
  rw [hall] at hrp
  obtain ⟨d0, l0, ds, Ls, hld, hrp2, hr, hls⟩ :=
    recordPass_cons d.extent _ _ records layers' hrp
  have hpro : promoteZeroBounds d.extent (Layer.group b cs)
      = Layer.group { b with bounds := d.extent } cs := by
    simp [promoteZeroBounds, Layer.base, Layer.withBase, hb]
  rw [hpro, group_layerRecordData_eq] at hld
  have hd0 : d0 = (i32be 0 ++ i32be 0 ++ i32be (d.size.height : Int)
      ++ i32be (d.size.width : Int))
      ++ (i16be b.number_of_channels
        ++ (recordChannels (u32OfInt d.extent.height) b.channels).1
        ++ RESOURCE_SIGNATURE ++ b.blend_mode.asStr ++ u8byte b.opacity
        ++ [0x00] ++ [if b.is_hidden then 0x02 else 0x00] ++ [0x00]
        ++ u32be (u32be 0 ++ u32be 0 ++ pad (pascalData b.name) 4
            ++ unicodeData b.name
            ++ b.additional_layer_information.getD []).length
        ++ (u32be 0 ++ u32be 0 ++ pad (pascalData b.name) 4
            ++ unicodeData b.name
            ++ b.additional_layer_information.getD [])) := by
    simp only [Option.some.injEq, Prod.mk.injEq] at hld
    rw [← hld.1]
    simp [Rect.minY, Rect.minX, Rect.maxY, Rect.maxX, Rect.height,
      Document.extent]
  rw [h98, hr, hd0]
  rw [List.append_assoc, List.append_assoc, List.take_append_of_le_length
    (by simp [i32be_length])]
  have hlen : (i32be 0 ++ i32be 0 ++ i32be (d.size.height : Int)
      ++ i32be (d.size.width : Int)).length = 16 := by simp [i32be_length]
  rw [List.take_of_length_le (by rw [hlen])]

end Psd

namespace Psd

/-- Witness for C9 at a concrete 3×2 document holding one empty group. -/
theorem claim_C9_witness :
    (((Document.mk 4 ⟨3, 2⟩ 8 .rgb none
          [Layer.mkGroup [] false]).fileData.getD []).drop
        (98 + 2 * (Document.mk 4 ⟨3, 2⟩ 8 .rgb none
          [Layer.mkGroup [] false]).numberOfLayers)).take 16
      = i32be 0 ++ i32be 0
        ++ i32be ((Document.mk 4 ⟨3, 2⟩ 8 .rgb none
            [Layer.mkGroup [] false]).size.height : Int)
        ++ i32be ((Document.mk 4 ⟨3, 2⟩ 8 .rgb none
            [Layer.mkGroup [] false]).size.width : Int) :=
  claim_C9_group_bounds_promoted
    (Document.mk 4 ⟨3, 2⟩ 8 .rgb none [Layer.mkGroup [] false])
    ⟨Rect.zero, 4, [], .normal, 255, false, none, none, none, .closedFolder⟩
    [] [] ((Document.mk 4 ⟨3, 2⟩ 8 .rgb none
      [Layer.mkGroup [] false]).fileData.getD [])
    rfl rfl (by rfl)

end Psd

namespace Psd

/-! ### Channel-loop helpers (C6) -/

theorem compressedData_zero_height_fails (ch : ColorChannel)
    (hlen : 2 < ch.data.length) (hcache : ch.cache = none) :
    ch.compressedData 0 = (.error .invalidImage, ch) := by
  have hnle : ¬ ch.data.length ≤ 2 := by omega
  simp [ColorChannel.compressedData, if_neg hnle, hcache,
    ColorChannel.rleEncodedData, ColorChannel.rleEncodedComponents]

theorem encodedImageChannels_append (hh : Nat) (l1 l2 : List ColorChannel) :
    encodedImageChannels hh (l1 ++ l2)
      = ((encodedImageChannels hh l1).1 ++ (encodedImageChannels hh l2).1,
         (encodedImageChannels hh l1).2 ++ (encodedImageChannels hh l2).2) := by
  induction l1 with
  | nil => simp [encodedImageChannels]
  | cons ch restl ih =>
    simp only [List.cons_append, encodedImageChannels, ih]
    cases hcd : ch.compressedData hh with
    | mk res ch' => cases res <;> simp [ih, List.append_assoc]

theorem recordChannels_append (hh : Nat) (l1 l2 : List ColorChannel) :
    recordChannels hh (l1 ++ l2)
      = ((recordChannels hh l1).1 ++ (recordChannels hh l2).1,
         (recordChannels hh l1).2 ++ (recordChannels hh l2).2) := by
  induction l1 with
  | nil => simp [recordChannels]
  | cons ch restl ih =>
    simp only [List.cons_append, recordChannels, ih]
    cases hcd : ch.compressedData hh with
    | mk res ch' => cases res <;> simp [ih, List.append_assoc]

theorem encodedImageChannels_cons_fail (hh : Nat) (ch : ColorChannel)
    (rest : List ColorChannel)
    (hf : ch.compressedData hh = (.error .invalidImage, ch)) :
    encodedImageChannels hh (ch :: rest)
      = ((encodedImageChannels hh rest).1,
         ch :: (encodedImageChannels hh rest).2) := by
  simp [encodedImageChannels, hf]

theorem recordChannels_cons_fail (hh : Nat) (ch : ColorChannel)
    (rest : List ColorChannel)
    (hf : ch.compressedData hh = (.error .invalidImage, ch)) :
    recordChannels hh (ch :: rest)
      = (i16be ch.color_type.rawValue ++ (recordChannels hh rest).1,
         ch :: (recordChannels hh rest).2) := by
  simp [recordChannels, hf]

end Psd

namespace Psd

/-- C6: for an image layer holding a channel whose `compressed_data` call
fails (here: more than 2 data bytes, no cache, bounds height 0 — which
fails with `InvalidImage`), `layer_encoded_image` and `layer_record_data`
both succeed, swallowing the error: the image block omits the failing
channel's compression tag and payload entirely while still emitting the
other channels' blocks, and the layer record still writes the declared
channel count and the failing channel's type code but omits its length
field, emitting the remaining channels' entries; the failing channel
itself is left unchanged in the threaded channel list. -/
theorem claim_C6_channel_error_swallowed (b : LayerBase)
    (pre post : List ColorChannel) (bad : ColorChannel)
    (hch : b.channels = pre ++ bad :: post)
    (hlen : 2 < bad.data.length) (hcache : bad.cache = none)
    (hh : b.bounds.size.height = 0) :
    (bad.compressedData 0).1 = .error .invalidImage ∧
    (Layer.image b).layerEncodedImage
      = some ((encodedImageChannels 0 pre).1 ++ (encodedImageChannels 0 post).1,
          Layer.image { b with channels :=
            (encodedImageChannels 0 pre).2
              ++ bad :: (encodedImageChannels 0 post).2 }) ∧
    (Layer.image b).layerRecordData
      = some (i32be b.bounds.minY ++ i32be b.bounds.minX ++ i32be b.bounds.maxY
            ++ i32be b.bounds.maxX ++ i16be b.number_of_channels
            ++ ((recordChannels 0 pre).1 ++ i16be bad.color_type.rawValue
              ++ (recordChannels 0 post).1)
            ++ RESOURCE_SIGNATURE ++ b.blend_mode.asStr ++ u8byte b.opacity
            ++ [0x00] ++ [if b.is_hidden then 0x02 else 0x00] ++ [0x00]
            ++ u32be (u32be 0 ++ u32be 0 ++ pad (pascalData b.name) 4
                ++ unicodeData b.name
                ++ b.additional_layer_information.getD []).length
            ++ (u32be 0 ++ u32be 0 ++ pad (pascalData b.name) 4
                ++ unicodeData b.name
                ++ b.additional_layer_information.getD []),
          Layer.image { b with channels :=
            (recordChannels 0 pre).2 ++ bad :: (recordChannels 0 post).2 }) := by
  have hfail : bad.compressedData 0 = (.error .invalidImage, bad) :=
    compressedData_zero_height_fails bad hlen hcache
  have hz : (Int.emod 0 4294967296).toNat = 0 := rfl
  refine ⟨by rw [hfail], ?_, ?_⟩
  · simp [Layer.layerEncodedImage, Layer.base, Layer.withBase, hch, hh,
      u32OfInt, encodedImageChannels_append,
      encodedImageChannels_cons_fail 0 bad post hfail, hz, List.append_assoc]
  · simp [Layer.layerRecordData, Layer.base, Layer.withBase, hch,
      Rect.height, hh, u32OfInt, recordChannels_append,
      recordChannels_cons_fail 0 bad post hfail, hz, List.append_assoc]

end Psd

namespace Psd

/-- Witness for C6: a one-channel image layer of width 5 and height 0
whose single channel holds 3 bytes and no cache.  Both encoders succeed;
the image block is empty (tag and payload omitted) and the record still
declares 1 channel and writes the channel's type code followed directly by
the blend-mode signature (no length field). -/
theorem claim_C6_witness :
    (((⟨3, .red, [7, 8, 9], none⟩ : ColorChannel).compressedData 0).1
      = .error .invalidImage) ∧
    (Layer.image ⟨⟨⟨0, 0⟩, ⟨5, 0⟩⟩, 1, [⟨3, .red, [7, 8, 9], none⟩], .normal,
        255, false, none, none, none, .other⟩).layerEncodedImage
      = some ([], Layer.image ⟨⟨⟨0, 0⟩, ⟨5, 0⟩⟩, 1,
          [⟨3, .red, [7, 8, 9], none⟩], .normal,
          255, false, none, none, none, .other⟩) ∧
    (Layer.image ⟨⟨⟨0, 0⟩, ⟨5, 0⟩⟩, 1, [⟨3, .red, [7, 8, 9], none⟩], .normal,
        255, false, none, none, none, .other⟩).layerRecordData
      = some ([0, 0, 0, 0, 0, 0, 0, 0, 0, 0, 0, 0, 0, 0, 0, 5, 0, 1, 0, 0,
          56, 66, 73, 77, 110, 111, 114, 109, 255, 0, 0, 0, 0, 0, 0, 28,
          0, 0, 0, 0, 0, 0, 0, 0, 0, 0, 0, 0, 56, 66, 73, 77,
          108, 117, 110, 105, 0, 0, 0, 4, 0, 0, 0, 0],
        Layer.image ⟨⟨⟨0, 0⟩, ⟨5, 0⟩⟩, 1,
          [⟨3, .red, [7, 8, 9], none⟩], .normal,
          255, false, none, none, none, .other⟩) :=
  claim_C6_channel_error_swallowed
    ⟨⟨⟨0, 0⟩, ⟨5, 0⟩⟩, 1, [⟨3, .red, [7, 8, 9], none⟩], .normal,
      255, false, none, none, none, .other⟩
    [] [] ⟨3, .red, [7, 8, 9], none⟩ rfl (by decide) rfl rfl

end Psd
